import Mathlib

/-!
Shallow embedding of the flamedisx truncated-support bound estimator
(`src/flamedisx/bounds.py`) and the quanta-splitting simulation block
(`src/flamedisx/nest/lxe_blocks/quanta_splitting.py`).

Floating-point numbers are modelled by an arbitrary linear ordered field
`α` (instantiated at `ℚ` for executable witnesses and at `ℝ` where the
transcendental densities are needed).  External numpy/scipy routines that
the source calls (`np.exp`, `scipy.special.erf`, `scipy.stats.norm.pdf`,
`np.sqrt(2)`) are passed as explicit function parameters and instantiated
with their mathematical definitions over `ℝ`.  Python exceptions are
modelled with `Except String`.
-/

namespace FD

variable {α : Type} [LinearOrderedField α]

/-- A pandas dataframe restricted to what the code uses: named columns. -/
def DF (α : Type) : Type := List (String × List α)

/-- Column lookup, `df[key]` when the column may be absent. -/
def dfGet (df : DF α) (key : String) : Option (List α) :=
  (df.find? (fun kv => kv.1 == key)).map (fun kv => kv.2)

/-- Column lookup `d[key]` that raises `KeyError` on a missing column. -/
def dfGetE (df : DF α) (key : String) : Except String (List α) :=
  match dfGet df key with
  | some col => Except.ok col
  | none => Except.error ("KeyError: " ++ key)

/-- Column assignment `df[key] = vals`. -/
def dfSet (df : DF α) (key : String) (vals : List α) : DF α :=
  (key, vals) :: df.filter (fun kv => kv.1 != key)

/-- Replace the slice `[start, start + vals.length)` of a list, keeping the
rest; models a `df.loc[a : b, col] = vals` row-slice assignment. -/
def listSetSlice (col : List α) (start : ℕ) (vals : List α) : List α :=
  col.take start ++ vals ++ col.drop (start + vals.length)

/-- `df.loc[start : start + len - 1, key] = vals` (pandas label slices are
inclusive on both ends; the source always assigns exactly one batch). -/
def dfSetSlice (df : DF α) (key : String) (start : ℕ) (vals : List α) : DF α :=
  dfSet df key (listSetSlice ((dfGet df key).getD []) start vals)

/-- Elementwise zip of three lists (numpy broadcasting over equal shapes). -/
def zipWith3 {β₁ β₂ β₃ γ : Type} (f : β₁ → β₂ → β₃ → γ) :
    List β₁ → List β₂ → List β₃ → List γ
  | a :: as, b :: bs, c :: cs => f a b c :: zipWith3 f as bs cs
  | _, _, _ => []

/-- Elementwise zip of four lists. -/
def zipWith4 {β₁ β₂ β₃ β₄ γ : Type} (f : β₁ → β₂ → β₃ → β₄ → γ) :
    List β₁ → List β₂ → List β₃ → List β₄ → List γ
  | a :: as, b :: bs, c :: cs, d :: ds => f a b c d :: zipWith4 f as bs cs ds
  | _, _, _, _ => []

/-- Elementwise zip of five lists. -/
def zipWith5 {β₁ β₂ β₃ β₄ β₅ γ : Type} (f : β₁ → β₂ → β₃ → β₄ → β₅ → γ) :
    List β₁ → List β₂ → List β₃ → List β₄ → List β₅ → List γ
  | a :: as, b :: bs, c :: cs, d :: ds, e :: es =>
      f a b c d e :: zipWith5 f as bs cs ds es
  | _, _, _, _, _ => []

/-- `np.cumsum` with an explicit accumulator. -/
def cumsumFrom (acc : α) : List α → List α
  | [] => []
  | x :: xs => (acc + x) :: cumsumFrom (acc + x) xs

/-- `np.cumsum(pdf)`: running partial sums. -/
def cumsum (l : List α) : List α := cumsumFrom 0 l

/-- `pdf / np.sum(pdf)`: renormalisation of a per-event mass vector. -/
def normalize (l : List α) : List α := l.map (fun x => x / l.sum)

/-- `np.shape` of a rectangular list-of-arrays: the per-event lengths
(the outer length is the length of this list). -/
def shapeOf {β : Type} (xss : List (List β)) : List ℕ := xss.map List.length

/-- `scipy.stats.binom.pmf(k, n, p)` for integer `k`:
`C(n, k) * p^k * (1-p)^(n-k)` (zero for `k > n` via `Nat.choose`). -/
def binomPMF (k n : ℕ) (p : α) : α :=
  (n.choose k : α) * p ^ k * (1 - p) ^ (n - k)

/-- The local closure `prior` of `bayes_bounds_binomial`, evaluated on one
event support: returns the uniform factor 1 when no prior is supplied or
when the prior density sums to 0 over the support, else the density values. -/
def priorVals (prior_pdf : Option (α → α)) (support : List α) : List α :=
  match prior_pdf with
  | none => support.map (fun _ => 1)
  | some f =>
      if (support.map f).sum = 0 then support.map (fun _ => 1)
      else support.map f

/-- The un-normalised per-event mass vector of `bayes_bounds_binomial`:
`stats.binom.pmf(rv, n, p) * prior(support)` elementwise. -/
def binomEventPdf (prior_pdf : Option (α → α)) (support : List α)
    (rv_binom n_binom : List ℕ) (p_binom : List α) : List α :=
  List.zipWith (fun a b => a * b)
    (zipWith3 (fun k n p => binomPMF k n p) rv_binom n_binom p_binom)
    (priorVals prior_pdf support)

/-- `bayes_bounds_binomial(supports, rvs_binom, ns_binom, ps_binom, prior_pdf)`
from `bounds.py`: shape assert, then per-event pmf times prior factor,
renormalised and cumulatively summed. -/
def bayes_bounds_binomial (supports : List (List α))
    (rvs_binom ns_binom : List (List ℕ)) (ps_binom : List (List α))
    (prior_pdf : Option (α → α)) : Except String (List (List α)) :=
  if shapeOf rvs_binom = shapeOf ns_binom ∧ shapeOf ns_binom = shapeOf ps_binom
      ∧ shapeOf ps_binom = shapeOf supports then
    let pdfs := zipWith4
      (fun rv_binom n_binom p_binom support =>
        binomEventPdf prior_pdf support rv_binom n_binom p_binom)
      rvs_binom ns_binom ps_binom supports
    let pdfs2 := pdfs.map normalize
    Except.ok (pdfs2.map cumsum)
  else
    Except.error ("Shapes of suports, rvs_binom, ns_binom and ps_binom must be equal")

/-- `bayes_bounds_normal(supports, rvs_normal, mus_normal, sigmas_normal)`:
`norm_pdf` stands for the external `scipy.stats.norm.pdf`. -/
def bayes_bounds_normal (norm_pdf : α → α → α → α) (supports : List (List α))
    (rvs_normal mus_normal sigmas_normal : List (List α)) :
    Except String (List (List α)) :=
  if shapeOf rvs_normal = shapeOf mus_normal ∧ shapeOf mus_normal = shapeOf sigmas_normal
      ∧ shapeOf sigmas_normal = shapeOf supports then
    let pdfs := zipWith3
      (fun rv_normal mu_normal sigma_normal =>
        zipWith3 norm_pdf rv_normal mu_normal sigma_normal)
      rvs_normal mus_normal sigmas_normal
    let pdfs2 := pdfs.map normalize
    Except.ok (pdfs2.map cumsum)
  else
    Except.error ("Shapes of supports, rvs_normal, mus_normal and sigmas_normal must be equal")

/-- The inner `skew_normal(x, mu, sigma, alpha)` closure of
`bayes_bounds_skew_normal`; `expf`, `erff`, `sqrt2` stand for the external
`np.exp`, `scipy.special.erf` and `np.sqrt(2)`. -/
def skew_normal_fn (expf erff : α → α) (sqrt2 : α) (x mu sigma alpha : α) : α :=
  (1 / sigma) * expf (-(1 / 2) * (x - mu) ^ 2 / sigma ^ 2)
    * (1 + erff (alpha * (x - mu) / (sqrt2 * sigma)))

/-- `bayes_bounds_skew_normal(supports, rvs, mus, sigmas, alphas)`: note the
source asserts equal shapes for supports/rvs/mus/sigmas but not alphas,
and zips the (unused) supports into the comprehension. -/
def bayes_bounds_skew_normal (expf erff : α → α) (sqrt2 : α)
    (supports rvs_skew_normal mus_skew_normal sigmas_skew_normal
      alphas_skew_normal : List (List α)) : Except String (List (List α)) :=
  if shapeOf rvs_skew_normal = shapeOf mus_skew_normal
      ∧ shapeOf mus_skew_normal = shapeOf sigmas_skew_normal
      ∧ shapeOf sigmas_skew_normal = shapeOf supports then
    let pdfs := zipWith5
      (fun rv mu sigma alpha _support =>
        zipWith4 (skew_normal_fn expf erff sqrt2) rv mu sigma alpha)
      rvs_skew_normal mus_skew_normal sigmas_skew_normal alphas_skew_normal supports
    let pdfs2 := pdfs.map normalize
    Except.ok (pdfs2.map cumsum)
  else
    Except.error ("Shapes of supports, rvs_skew_normal, mus_skew_normal and sigmas_skew_normal must be equal")

/-- `np.where(cdf < bounds_prob)[0]`: the (ascending) indices where the
condition holds. -/
def npWhereLt (cdf : List α) (p : α) : List ℕ :=
  (List.range cdf.length).filter (fun i => decide (cdf.getD i 0 < p))

/-- `np.where(cdf > q)[0]`. -/
def npWhereGt (cdf : List α) (q : α) : List ℕ :=
  (List.range cdf.length).filter (fun i => decide (q < cdf.getD i 0))

/-- `np.argmin`: index of the first occurrence of the minimum. -/
def npArgmin : List α → ℕ
  | [] => 0
  | [_] => 0
  | x :: y :: tl =>
      let m := npArgmin (y :: tl)
      if (y :: tl).getD m 0 < x then m + 1 else 0

/-- One event of the `bound == 'lower'` branch of `bayes_bounds`:
`support[np.where(cdf < bounds_prob)[0][-1]]` with fallback `support[0]`. -/
def lowerLim (support cdf : List α) (bounds_prob : α) : α :=
  match (npWhereLt cdf bounds_prob).getLast? with
  | some i => support.getD i 0
  | none => support.headD 0

/-- One event of the `bound == 'upper'` branch:
`support[np.where(cdf > 1 - bounds_prob)[0][0]]` with fallback `support[-1]`. -/
def upperLim (support cdf : List α) (bounds_prob : α) : α :=
  match (npWhereGt cdf (1 - bounds_prob)).head? with
  | some i => support.getD i 0
  | none => support.getLastD 0

/-- One event of the `bound == 'mle'` branch:
`support[np.argmin(np.abs(cdf - 0.5))]`. -/
def mleVal (support cdf : List α) : α :=
  support.getD (npArgmin (cdf.map (fun c => |c - 1 / 2|))) 0

/-- The `lower_lims` comprehension over `zip(supports, cdfs)`. -/
def lowerLims (supports cdfs : List (List α)) (bounds_prob : α) : List α :=
  List.zipWith (fun support cdf => lowerLim support cdf bounds_prob) supports cdfs

/-- The `upper_lims` comprehension. -/
def upperLims (supports cdfs : List (List α)) (bounds_prob : α) : List α :=
  List.zipWith (fun support cdf => upperLim support cdf bounds_prob) supports cdfs

/-- The `mles` comprehension. -/
def mleVals (supports cdfs : List (List α)) : List α :=
  List.zipWith (fun support cdf => mleVal support cdf) supports cdfs

/-- The `**kwargs` a call to `bayes_bounds` forwards to the chosen
estimator. -/
inductive BBKwargs (α : Type) where
  | binom (rvs_binom ns_binom : List (List ℕ)) (ps_binom : List (List α))
      (prior_pdf : Option (α → α))
  | norm (rvs_normal mus_normal sigmas_normal : List (List α))

/-- `bayes_bounds(df, in_dim, bounds_prob, bound, bound_type, supports, **kwargs)`
from `bounds.py`.  `norm_pdf` stands for the external `scipy.stats.norm.pdf`
used by `bayes_bounds_normal`.  Mirrors the two entry asserts, the
binomial/normal dispatch and the three column writes. -/
def bayes_bounds (norm_pdf : α → α → α → α) (df : DF α) (in_dim : String)
    (bounds_prob : α) (bound bound_type : String) (supports : List (List α))
    (kw : BBKwargs α) : Except String (DF α) :=
  if bound ∉ ["upper", "lower", "mle"] then
    Except.error ("bound argumment must be upper, lower or mle")
  else if bound_type ∉ ["binomial", "normal"] then
    Except.error ("bound_type must be binomial or normal")
  else do
    let cdfs ← match bound_type, kw with
      | "binomial", BBKwargs.binom rvs ns ps prior =>
          bayes_bounds_binomial supports rvs ns ps prior
      | "normal", BBKwargs.norm rvs mus sigmas =>
          bayes_bounds_normal norm_pdf supports rvs mus sigmas
      | _, _ => Except.error ("TypeError: keyword arguments do not match bound_type")
    if bound = "lower" then
      pure (dfSet df (in_dim ++ "_min") (lowerLims supports cdfs bounds_prob))
    else if bound = "upper" then
      pure (dfSet df (in_dim ++ "_max") (upperLims supports cdfs bounds_prob))
    else
      pure (dfSet df (in_dim ++ "_mle") (mleVals supports cdfs))

/-- The source object as `bayes_bounds_batched` uses it: the per-batch prior
storage tuples (each entry a dict from dimension name to a density) and the
batch size. -/
structure Source (α : Type) where
  prior_PDFs_LB : List (String → α → α)
  prior_PDFs_UB : List (String → α → α)
  batch_size : ℕ

/-- Python list `<`: lexicographic comparison, elementwise. -/
def pyListLt : List α → List α → Bool
  | [], [] => false
  | [], _ :: _ => true
  | _ :: _, [] => false
  | x :: xs, y :: ys => if x < y then true else if y < x then false else pyListLt xs ys

/-- Python `max(a, b)` on two lists: returns `b` iff `a < b` lexicographically
(ties return the first argument). -/
def pyMax2 (a b : List α) : List α := if pyListLt a b then b else a

/-- Python `min(a, b)` on two lists: returns `b` iff `b < a` lexicographically. -/
def pyMin2 (a b : List α) : List α := if pyListLt b a then b else a

/-- `bayes_bounds_batched(source, batch, df, in_dim, bounds_prob, bound,
bound_type, supports, **kwargs)` from `bounds.py`.  For `bound == 'mle'`
the Python local `prior_pdfs` is never assigned yet read at the
`bayes_bounds_binomial` call, an `UnboundLocalError`; tuple indexing out of
range is an `IndexError`.  The stored bound is Python `max`/`min` of the two
whole lists, i.e. lexicographic. -/
def bayes_bounds_batched (source : Source α) (batch : ℕ) (df : DF α)
    (in_dim : String) (bounds_prob : α) (bound bound_type : String)
    (supports : List (List α)) (rvs_binom ns_binom : List (List ℕ))
    (ps_binom : List (List α)) : Except String (DF α) :=
  if bound ∉ ["upper", "lower", "mle"] then
    Except.error ("bound argumment must be upper or lower")
  else if bound_type ∉ ["binomial"] then
    Except.error ("bound_type must be binomial")
  else do
    let prior_pdfs ← match bound with
      | "upper" =>
          match source.prior_PDFs_UB.get? batch with
          | some dict => Except.ok dict
          | none => Except.error ("IndexError: tuple index out of range")
      | "lower" =>
          match source.prior_PDFs_LB.get? batch with
          | some dict => Except.ok dict
          | none => Except.error ("IndexError: tuple index out of range")
      | _ => Except.error ("UnboundLocalError: local variable prior_pdfs referenced before assignment")
    let cdfs_prior ← bayes_bounds_binomial supports rvs_binom ns_binom ps_binom
      (some (prior_pdfs in_dim))
    let cdfs_no_prior ← bayes_bounds_binomial supports rvs_binom ns_binom ps_binom none
    if bound = "lower" then
      let lower_lims_prior := lowerLims supports cdfs_prior bounds_prob
      let lower_lims_no_prior := lowerLims supports cdfs_no_prior bounds_prob
      pure (dfSetSlice df (in_dim ++ "_min") (batch * source.batch_size)
        (pyMax2 lower_lims_prior lower_lims_no_prior))
    else if bound = "upper" then
      let upper_lims_prior := upperLims supports cdfs_prior bounds_prob
      let upper_lims_no_prior := upperLims supports cdfs_no_prior bounds_prob
      pure (dfSetSlice df (in_dim ++ "_max") (batch * source.batch_size)
        (pyMin2 upper_lims_prior upper_lims_no_prior))
    else
      pure df

/-- Modelled from the spec: `fd.Block.gimme_numpy` is not under `src/`.
Per section 4.4 of the spec, a stage that asks for a model function it has
not declared in its required-function list is a configuration error, fatal;
a declared function's per-event values come from the external model
configuration, represented by `env`. -/
def gimme_numpy (declared : List String) (env : String → List α)
    (name : String) : Except String (List α) :=
  if name ∈ declared then Except.ok (env name)
  else Except.error ("model function not declared: " ++ name)

/-- `special_model_functions` of `MakePhotonsElectronsNR` (the longer list
on lines 18-19 of `quanta_splitting.py` is commented out in the source). -/
def special_model_functions_NR : List String :=
  ["mean_yield_electron", "mean_yield_quanta", "alpha"]

/-- `special_model_functions` of `MakePhotonsElectronER`: the NR list
without `exciton_ratio` (a no-op, it is absent) plus `fano_factor`. -/
def special_model_functions_ER : List String :=
  ["mean_yield_electron", "mean_yield_quanta", "alpha", "fano_factor"]

/-- `np.where(t < 0, t * 0, t)`: clamp a count array at zero. -/
def np_where_neg_zero (l : List ℤ) : List ℤ :=
  l.map (fun x => if x < 0 then x * 0 else x)

/-- Lines 61-82 of `quanta_splitting.py`, shared by both branches of
`_simulate`.  The random draw `np.round(stats.skewnorm.rvs(...)).astype(int)`
is passed in as `el_prod_temp1_draw`.  Line 61-65 ask for five model
functions none of which is declared; line 63 additionally reads the
misspelled column `d['ion_produced']`; line 67 then references the unbound
Python names `skewness`, `recombP`, `muCorrection`, `Variance` and
`widthCorrection` (the locals are `skew`, `recomb_p`, `mu_corr`, `var`,
`width_corr`), a `NameError`. -/
def quanta_splitting_tail (declared : List String) (d : DF ℤ)
    (env : String → List ℚ) (nq_actual n_ex _el_prod_temp1_draw : List ℤ) :
    Except String (DF ℤ) := do
  let _recomb_p ← gimme_numpy declared env "recomb_prob"
  let _skew ← gimme_numpy declared env "skewness"
  let _ion_col ← dfGetE (α := ℤ) d "ion_produced"
  let _var ← gimme_numpy declared env "variance"
  let _width_corr ← gimme_numpy declared env "width_correction"
  let _mu_corr ← gimme_numpy declared env "mu_correction"
  let el_prod_temp1 ← (Except.error ("NameError: name skewness is not defined") :
    Except String (List ℤ))
  let el_prod_temp2 := np_where_neg_zero el_prod_temp1
  let ions_produced := (dfGet d "ions_produced").getD []
  let electrons_produced := List.zipWith
    (fun e i => if i < e then i else e) el_prod_temp2 ions_produced
  let d2 := dfSet d "electrons_produced" electrons_produced
  let ph_prod_temp := List.zipWith (fun q e => q - e) nq_actual electrons_produced
  let photons_produced := List.zipWith
    (fun p n => if p < n then n else p) ph_prod_temp n_ex
  pure (dfSet d2 "photons_produced" photons_produced)

/-- `MakePhotonsElectronsNR._simulate(self, d)` from `quanta_splitting.py`
(the ER subclass sets `is_ER = True` and its own declared list).  Random
draws (`stats.norm.rvs`/`stats.binom.rvs` rounded to int) are passed in
explicitly.  Model-function values live in the `ℚ`-valued dataframe `d`
and `env`; count columns are `ℤ`. -/
def MakePhotonsElectronsNR_simulate (is_ER : Bool) (declared : List String)
    (d : DF ℤ) (env : String → List ℚ)
    (nq_actual_temp_draw ions_binom_draw ni_temp_draw nex_temp_draw
      el_prod_temp1_draw : List ℤ) : Except String (DF ℤ) := do
  if is_ER then
    let _nel ← gimme_numpy declared env "mean_yield_electron"
    let _nq ← gimme_numpy declared env "mean_yield_quanta"
    let _fano ← gimme_numpy declared env "fano_factor"
    let nq_actual := np_where_neg_zero nq_actual_temp_draw
    let _alf ← gimme_numpy declared env "alpha"
    let d1 := dfSet d "ions_produced" ions_binom_draw
    let nex := List.zipWith (fun q i => q - i) nq_actual ions_binom_draw
    quanta_splitting_tail declared d1 env nq_actual nex el_prod_temp1_draw
  else
    let _nel ← gimme_numpy declared env "mean_yield_electron"
    let _nq ← gimme_numpy declared env "mean_yield_quanta"
    let _alf ← gimme_numpy declared env "alpha"
    let d1 := dfSet d "ions_produced" (np_where_neg_zero ni_temp_draw)
    let _ex_ratio ← gimme_numpy declared env "exciton_ratio"
    let n_ex := np_where_neg_zero nex_temp_draw
    let ion_col ← dfGetE (α := ℤ) d1 "ion_produced"
    let nq_actual := List.zipWith (fun i e => i + e) ion_col n_ex
    quanta_splitting_tail declared d1 env nq_actual n_ex el_prod_temp1_draw

/-- `scipy.stats.norm.pdf(x, mu, sigma)`, the external normal density the
source hands to its renormalisation step (spec section 4.1). -/
noncomputable def norm_pdf (x mu sigma : ℝ) : ℝ :=
  (1 / (sigma * Real.sqrt (2 * Real.pi))) * Real.exp (-(x - mu) ^ 2 / (2 * sigma ^ 2))

/-- `scipy.special.erf`, the external error function used by the inline
skew-normal density: `erf x = (2 / √π) ∫ t in 0..x, exp (-t²)`. -/
noncomputable def erf (x : ℝ) : ℝ :=
  (2 / Real.sqrt Real.pi) * ∫ t in (0 : ℝ)..x, Real.exp (-t ^ 2)

section ListLemmas

lemma length_zipWith3 {β₁ β₂ β₃ γ : Type} (f : β₁ → β₂ → β₃ → γ) :
    ∀ (as : List β₁) (bs : List β₂) (cs : List β₃),
      (zipWith3 f as bs cs).length = min as.length (min bs.length cs.length)
  | [], bs, cs => by simp [zipWith3]
  | a :: as, [], cs => by simp [zipWith3]
  | a :: as, b :: bs, [] => by simp [zipWith3]
  | a :: as, b :: bs, c :: cs => by
      simp [zipWith3, length_zipWith3 f as bs cs]; omega

lemma length_zipWith4 {β₁ β₂ β₃ β₄ γ : Type} (f : β₁ → β₂ → β₃ → β₄ → γ) :
    ∀ (as : List β₁) (bs : List β₂) (cs : List β₃) (ds : List β₄),
      (zipWith4 f as bs cs ds).length
        = min as.length (min bs.length (min cs.length ds.length))
  | [], bs, cs, ds => by simp [zipWith4]
  | a :: as, [], cs, ds => by simp [zipWith4]
  | a :: as, b :: bs, [], ds => by simp [zipWith4]
  | a :: as, b :: bs, c :: cs, [] => by simp [zipWith4]
  | a :: as, b :: bs, c :: cs, d :: ds => by
      simp [zipWith4, length_zipWith4 f as bs cs ds]; omega

lemma length_zipWith5 {β₁ β₂ β₃ β₄ β₅ γ : Type} (f : β₁ → β₂ → β₃ → β₄ → β₅ → γ) :
    ∀ (as : List β₁) (bs : List β₂) (cs : List β₃) (ds : List β₄) (es : List β₅),
      (zipWith5 f as bs cs ds es).length
        = min as.length (min bs.length (min cs.length (min ds.length es.length)))
  | [], bs, cs, ds, es => by simp [zipWith5]
  | a :: as, [], cs, ds, es => by simp [zipWith5]
  | a :: as, b :: bs, [], ds, es => by simp [zipWith5]
  | a :: as, b :: bs, c :: cs, [], es => by simp [zipWith5]
  | a :: as, b :: bs, c :: cs, d :: ds, [] => by simp [zipWith5]
  | a :: as, b :: bs, c :: cs, d :: ds, e :: es => by
      simp [zipWith5, length_zipWith5 f as bs cs ds es]; omega

lemma zipWith_getD {β₁ β₂ γ : Type} (f : β₁ → β₂ → γ) :
    ∀ (as : List β₁) (bs : List β₂) (i : ℕ), i < as.length → i < bs.length →
      ∀ (d1 : β₁) (d2 : β₂) (dg : γ),
        (List.zipWith f as bs).getD i dg = f (as.getD i d1) (bs.getD i d2)
  | [], _, i, h1, _, _, _, _ => by simp at h1
  | _ :: _, [], i, _, h2, _, _, _ => by simp at h2
  | a :: as, b :: bs, 0, _, _, d1, d2, dg => by simp
  | a :: as, b :: bs, i + 1, h1, h2, d1, d2, dg => by
      simpa using zipWith_getD f as bs i (by simpa using h1) (by simpa using h2) d1 d2 dg

lemma zipWith3_getD {β₁ β₂ β₃ γ : Type} (f : β₁ → β₂ → β₃ → γ) :
    ∀ (as : List β₁) (bs : List β₂) (cs : List β₃) (i : ℕ),
      i < as.length → i < bs.length → i < cs.length →
      ∀ (d1 : β₁) (d2 : β₂) (d3 : β₃) (dg : γ),
        (zipWith3 f as bs cs).getD i dg
          = f (as.getD i d1) (bs.getD i d2) (cs.getD i d3)
  | [], _, _, i, h1, _, _, _, _, _, _ => by simp at h1
  | _ :: _, [], _, i, _, h2, _, _, _, _, _ => by simp at h2
  | _ :: _, _ :: _, [], i, _, _, h3, _, _, _, _ => by simp at h3
  | a :: as, b :: bs, c :: cs, 0, _, _, _, d1, d2, d3, dg => by simp [zipWith3]
  | a :: as, b :: bs, c :: cs, i + 1, h1, h2, h3, d1, d2, d3, dg => by
      simpa [zipWith3] using zipWith3_getD f as bs cs i (by simpa using h1)
        (by simpa using h2) (by simpa using h3) d1 d2 d3 dg

lemma zipWith4_getD {β₁ β₂ β₃ β₄ γ : Type} (f : β₁ → β₂ → β₃ → β₄ → γ) :
    ∀ (as : List β₁) (bs : List β₂) (cs : List β₃) (ds : List β₄) (i : ℕ),
      i < as.length → i < bs.length → i < cs.length → i < ds.length →
      ∀ (d1 : β₁) (d2 : β₂) (d3 : β₃) (d4 : β₄) (dg : γ),
        (zipWith4 f as bs cs ds).getD i dg
          = f (as.getD i d1) (bs.getD i d2) (cs.getD i d3) (ds.getD i d4)
  | [], _, _, _, i, h1, _, _, _, _, _, _, _, _ => by simp at h1
  | _ :: _, [], _, _, i, _, h2, _, _, _, _, _, _, _ => by simp at h2
  | _ :: _, _ :: _, [], _, i, _, _, h3, _, _, _, _, _, _ => by simp at h3
  | _ :: _, _ :: _, _ :: _, [], i, _, _, _, h4, _, _, _, _, _ => by simp at h4
  | a :: as, b :: bs, c :: cs, d :: ds, 0, _, _, _, _, d1, d2, d3, d4, dg => by
      simp [zipWith4]
  | a :: as, b :: bs, c :: cs, d :: ds, i + 1, h1, h2, h3, h4, d1, d2, d3, d4, dg => by
      simpa [zipWith4] using zipWith4_getD f as bs cs ds i (by simpa using h1)
        (by simpa using h2) (by simpa using h3) (by simpa using h4) d1 d2 d3 d4 dg

lemma zipWith5_getD {β₁ β₂ β₃ β₄ β₅ γ : Type} (f : β₁ → β₂ → β₃ → β₄ → β₅ → γ) :
    ∀ (as : List β₁) (bs : List β₂) (cs : List β₃) (ds : List β₄) (es : List β₅) (i : ℕ),
      i < as.length → i < bs.length → i < cs.length → i < ds.length → i < es.length →
      ∀ (d1 : β₁) (d2 : β₂) (d3 : β₃) (d4 : β₄) (d5 : β₅) (dg : γ),
        (zipWith5 f as bs cs ds es).getD i dg
          = f (as.getD i d1) (bs.getD i d2) (cs.getD i d3) (ds.getD i d4) (es.getD i d5)
  | [], _, _, _, _, i, h1, _, _, _, _, _, _, _, _, _, _ => by simp at h1
  | _ :: _, [], _, _, _, i, _, h2, _, _, _, _, _, _, _, _, _ => by simp at h2
  | _ :: _, _ :: _, [], _, _, i, _, _, h3, _, _, _, _, _, _, _, _ => by simp at h3
  | _ :: _, _ :: _, _ :: _, [], _, i, _, _, _, h4, _, _, _, _, _, _, _ => by simp at h4
  | _ :: _, _ :: _, _ :: _, _ :: _, [], i, _, _, _, _, h5, _, _, _, _, _, _ => by simp at h5
  | a :: as, b :: bs, c :: cs, d :: ds, e :: es, 0, _, _, _, _, _, d1, d2, d3, d4, d5, dg => by
      simp [zipWith5]
  | a :: as, b :: bs, c :: cs, d :: ds, e :: es, i + 1, h1, h2, h3, h4, h5,
      d1, d2, d3, d4, d5, dg => by
      simpa [zipWith5] using zipWith5_getD f as bs cs ds es i (by simpa using h1)
        (by simpa using h2) (by simpa using h3) (by simpa using h4)
        (by simpa using h5) d1 d2 d3 d4 d5 dg

lemma of_mem_zipWith {β₁ β₂ γ : Type} {f : β₁ → β₂ → γ} :
    ∀ {as : List β₁} {bs : List β₂} {z : γ}, z ∈ List.zipWith f as bs →
      ∃ x ∈ as, ∃ y ∈ bs, z = f x y
  | [], _, _, h => by simp at h
  | _ :: _, [], _, h => by simp at h
  | a :: as, b :: bs, z, h => by
      rcases List.mem_cons.mp h with h | h
      · exact ⟨a, by simp, b, by simp, h⟩
      · rcases of_mem_zipWith h with ⟨x, hx, y, hy, hz⟩
        exact ⟨x, by simp [hx], y, by simp [hy], hz⟩

lemma of_mem_zipWith3 {β₁ β₂ β₃ γ : Type} {f : β₁ → β₂ → β₃ → γ} :
    ∀ {as : List β₁} {bs : List β₂} {cs : List β₃} {z : γ}, z ∈ zipWith3 f as bs cs →
      ∃ x ∈ as, ∃ y ∈ bs, ∃ w ∈ cs, z = f x y w
  | [], _, _, _, h => by simp [zipWith3] at h
  | _ :: _, [], _, _, h => by simp [zipWith3] at h
  | _ :: _, _ :: _, [], _, h => by simp [zipWith3] at h
  | a :: as, b :: bs, c :: cs, z, h => by
      rcases List.mem_cons.mp h with h | h
      · exact ⟨a, by simp, b, by simp, c, by simp, h⟩
      · rcases of_mem_zipWith3 h with ⟨x, hx, y, hy, w, hw, hz⟩
        exact ⟨x, by simp [hx], y, by simp [hy], w, by simp [hw], hz⟩

lemma of_mem_zipWith4 {β₁ β₂ β₃ β₄ γ : Type} {f : β₁ → β₂ → β₃ → β₄ → γ} :
    ∀ {as : List β₁} {bs : List β₂} {cs : List β₃} {ds : List β₄} {z : γ},
      z ∈ zipWith4 f as bs cs ds →
      ∃ x ∈ as, ∃ y ∈ bs, ∃ w ∈ cs, ∃ v ∈ ds, z = f x y w v
  | [], _, _, _, _, h => by simp [zipWith4] at h
  | _ :: _, [], _, _, _, h => by simp [zipWith4] at h
  | _ :: _, _ :: _, [], _, _, h => by simp [zipWith4] at h
  | _ :: _, _ :: _, _ :: _, [], _, h => by simp [zipWith4] at h
  | a :: as, b :: bs, c :: cs, d :: ds, z, h => by
      rcases List.mem_cons.mp h with h | h
      · exact ⟨a, by simp, b, by simp, c, by simp, d, by simp, h⟩
      · rcases of_mem_zipWith4 h with ⟨x, hx, y, hy, w, hw, v, hv, hz⟩
        exact ⟨x, by simp [hx], y, by simp [hy], w, by simp [hw], v, by simp [hv], hz⟩

lemma headD_eq_getD {β : Type} (l : List β) (hl : l ≠ []) (d : β) :
    l.headD d = l.getD 0 d := by
  cases l with
  | nil => exact absurd rfl hl
  | cons x xs => simp

lemma getLastD_eq_getD {β : Type} :
    ∀ (l : List β), l ≠ [] → ∀ (d : β), l.getLastD d = l.getD (l.length - 1) d
  | [], h, _ => absurd rfl h
  | [x], _, d => by simp
  | x :: y :: tl, _, d => by
      have ih := getLastD_eq_getD (y :: tl) (by simp) d
      simpa using ih

end ListLemmas

section CdfLemmas

lemma length_cumsumFrom (acc : α) : ∀ (l : List α), (cumsumFrom acc l).length = l.length
  | [] => rfl
  | x :: xs => by simp [cumsumFrom, length_cumsumFrom (acc + x) xs]

lemma length_cumsum (l : List α) : (cumsum l).length = l.length :=
  length_cumsumFrom 0 l

lemma length_normalize (l : List α) : (normalize l).length = l.length := by
  simp [normalize]

lemma le_cumsumFrom_getD :
    ∀ (l : List α) (acc : α) (k : ℕ), (∀ x ∈ l, 0 ≤ x) → k < l.length →
      acc ≤ (cumsumFrom acc l).getD k 0
  | [], _, k, _, hk => by simp at hk
  | x :: xs, acc, 0, hpos, _ => by
      have : 0 ≤ x := hpos x (by simp)
      simp [cumsumFrom]; linarith
  | x :: xs, acc, k + 1, hpos, hk => by
      have h1 : acc + x ≤ (cumsumFrom (acc + x) xs).getD k 0 :=
        le_cumsumFrom_getD xs (acc + x) k (fun y hy => hpos y (by simp [hy]))
          (by simpa using hk)
      have : 0 ≤ x := hpos x (by simp)
      simp only [cumsumFrom, List.getD_cons_succ]
      linarith

lemma cumsumFrom_getD_mono :
    ∀ (l : List α) (acc : α) (i j : ℕ), (∀ x ∈ l, 0 ≤ x) → i ≤ j → j < l.length →
      (cumsumFrom acc l).getD i 0 ≤ (cumsumFrom acc l).getD j 0
  | [], _, _, j, _, _, hj => by simp at hj
  | x :: xs, acc, 0, 0, _, _, _ => le_refl _
  | x :: xs, acc, 0, j + 1, hpos, _, hj => by
      have h1 : acc + x ≤ (cumsumFrom (acc + x) xs).getD j 0 :=
        le_cumsumFrom_getD xs (acc + x) j (fun y hy => hpos y (by simp [hy]))
          (by simpa using hj)
      simpa [cumsumFrom] using h1
  | x :: xs, acc, i + 1, 0, _, hij, _ => by omega
  | x :: xs, acc, i + 1, j + 1, hpos, hij, hj => by
      have h1 := cumsumFrom_getD_mono xs (acc + x) i j
        (fun y hy => hpos y (by simp [hy])) (by omega) (by simpa using hj)
      simpa [cumsumFrom] using h1

lemma cumsumFrom_getLast? :
    ∀ (l : List α), l ≠ [] → ∀ (acc : α),
      (cumsumFrom acc l).getLast? = some (acc + l.sum)
  | [], h, _ => absurd rfl h
  | [x], _, acc => by simp [cumsumFrom]
  | x :: y :: tl, _, acc => by
      have ih := cumsumFrom_getLast? (y :: tl) (by simp) (acc + x)
      show ((acc + x) :: (acc + x + y) :: cumsumFrom (acc + x + y) tl).getLast? = _
      rw [List.getLast?_cons_cons]
      have hstep : ((acc + x + y) :: cumsumFrom (acc + x + y) tl)
          = cumsumFrom (acc + x) (y :: tl) := rfl
      rw [hstep, ih]
      congr 1
      simp [add_assoc]

lemma sum_map_div (s : α) : ∀ (l : List α), (l.map (fun x => x / s)).sum = l.sum / s
  | [] => by simp
  | x :: xs => by simp [sum_map_div s xs, add_div]

lemma sum_normalize (l : List α) (h : l.sum ≠ 0) : (normalize l).sum = 1 := by
  simp only [normalize, sum_map_div]
  exact div_self h

lemma normalize_nonneg (l : List α) (hpos : ∀ x ∈ l, 0 ≤ x) (hs : 0 ≤ l.sum) :
    ∀ y ∈ normalize l, 0 ≤ y := by
  intro y hy
  rcases List.mem_map.mp hy with ⟨x, hx, rfl⟩
  exact div_nonneg (hpos x hx) hs

/-- The renormalise-then-cumulate step applied to any per-event mass vector
with non-negative entries and positive sum yields a CDF of the same length,
monotonically non-decreasing, with final element exactly 1. -/
lemma cdf_props (l : List α) (hpos : ∀ x ∈ l, 0 ≤ x) (hsum : 0 < l.sum) :
    (cumsum (normalize l)).length = l.length ∧
    (∀ i j, i ≤ j → j < l.length →
      (cumsum (normalize l)).getD i 0 ≤ (cumsum (normalize l)).getD j 0) ∧
    (cumsum (normalize l)).getLast? = some 1 := by
  have hne : l ≠ [] := by
    intro h
    rw [h] at hsum
    simp at hsum
  have hnn : ∀ y ∈ normalize l, 0 ≤ y := normalize_nonneg l hpos (le_of_lt hsum)
  refine ⟨by simp [length_cumsum, length_normalize], ?_, ?_⟩
  · intro i j hij hj
    exact cumsumFrom_getD_mono (normalize l) 0 i j hnn hij
      (by simpa [length_normalize] using hj)
  · have hne2 : normalize l ≠ [] := by
      intro h
      have := length_normalize l
      rw [h] at this
      simp at this
      exact hne (List.length_eq_zero.mp this.symm)
    rw [cumsum, cumsumFrom_getLast? (normalize l) hne2 0,
      sum_normalize l (ne_of_gt hsum)]
    simp

end CdfLemmas

section ExtractionLemmas

lemma npArgmin_lt_length : ∀ (l : List α), l ≠ [] → npArgmin l < l.length
  | [], h => absurd rfl h
  | [x], _ => by simp [npArgmin]
  | x :: y :: tl, _ => by
      have ih := npArgmin_lt_length (y :: tl) (by simp)
      simp only [npArgmin]
      split
      · simpa using ih
      · simp

lemma npArgmin_le : ∀ (l : List α) (j : ℕ), j < l.length →
    l.getD (npArgmin l) 0 ≤ l.getD j 0
  | [], j, hj => by simp at hj
  | [x], 0, _ => le_refl _
  | [x], j + 1, hj => by simp at hj
  | x :: y :: tl, j, hj => by
      have ih := npArgmin_le (y :: tl)
      simp only [npArgmin]
      split
      case isTrue hlt =>
        cases j with
        | zero =>
            simpa using le_of_lt hlt
        | succ j' =>
            simpa using ih j' (by simpa using hj)
      case isFalse hge =>
        cases j with
        | zero => simp
        | succ j' =>
            have h1 : x ≤ (y :: tl).getD (npArgmin (y :: tl)) 0 := le_of_not_lt hge
            have h2 := ih j' (by simpa using hj)
            simpa using le_trans h1 h2

lemma mem_npWhereLt (cdf : List α) (p : α) (i : ℕ) :
    i ∈ npWhereLt cdf p ↔ i < cdf.length ∧ cdf.getD i 0 < p := by
  simp [npWhereLt, List.mem_filter, List.mem_range]

lemma mem_npWhereGt (cdf : List α) (q : α) (i : ℕ) :
    i ∈ npWhereGt cdf q ↔ i < cdf.length ∧ q < cdf.getD i 0 := by
  simp [npWhereGt, List.mem_filter, List.mem_range]

lemma npWhereLt_pairwise (cdf : List α) (p : α) :
    (npWhereLt cdf p).Pairwise (· < ·) :=
  List.Pairwise.sublist (List.filter_sublist _) (List.pairwise_lt_range _)

lemma npWhereGt_pairwise (cdf : List α) (q : α) :
    (npWhereGt cdf q).Pairwise (· < ·) :=
  List.Pairwise.sublist (List.filter_sublist _) (List.pairwise_lt_range _)

lemma pairwise_le_getLast {β : Type} [Preorder β] {l : List β} {a : β}
    (hp : l.Pairwise (· < ·)) (hLast : l.getLast? = some a) :
    ∀ b ∈ l, b ≤ a := by
  induction l generalizing a with
  | nil => simp at hLast
  | cons x tl ih =>
      intro b hb
      cases tl with
      | nil =>
          simp at hLast hb
          subst hLast
          subst hb
          exact le_refl _
      | cons y tl' =>
          rw [List.getLast?_cons_cons] at hLast
          rcases List.mem_cons.mp hb with rfl | hb'
          · have ha : a ∈ y :: tl' := List.mem_of_getLast?_eq_some hLast
            exact le_of_lt ((List.pairwise_cons.mp hp).1 a ha)
          · exact ih (List.pairwise_cons.mp hp).2 hLast b hb'

lemma pairwise_head_le {β : Type} [Preorder β] {l : List β} {a : β}
    (hp : l.Pairwise (· < ·)) (hHead : l.head? = some a) :
    ∀ b ∈ l, a ≤ b := by
  cases l with
  | nil => simp at hHead
  | cons x tl =>
      intro b hb
      have hax : a = x := by simpa using hHead.symm
      subst hax
      rcases List.mem_cons.mp hb with rfl | hb'
      · exact le_refl _
      · exact le_of_lt ((List.pairwise_cons.mp hp).1 b hb')

lemma npWhereLt_eq_nil_iff (cdf : List α) (p : α) :
    npWhereLt cdf p = [] ↔ ∀ i, i < cdf.length → ¬ cdf.getD i 0 < p := by
  constructor
  · intro h i hi hlt
    have : i ∈ npWhereLt cdf p := (mem_npWhereLt cdf p i).mpr ⟨hi, hlt⟩
    rw [h] at this
    simp at this
  · intro h
    apply List.eq_nil_iff_forall_not_mem.mpr
    intro i hi
    rcases (mem_npWhereLt cdf p i).mp hi with ⟨h1, h2⟩
    exact h i h1 h2

lemma npWhereGt_eq_nil_iff (cdf : List α) (q : α) :
    npWhereGt cdf q = [] ↔ ∀ i, i < cdf.length → ¬ q < cdf.getD i 0 := by
  constructor
  · intro h i hi hlt
    have : i ∈ npWhereGt cdf q := (mem_npWhereGt cdf q i).mpr ⟨hi, hlt⟩
    rw [h] at this
    simp at this
  · intro h
    apply List.eq_nil_iff_forall_not_mem.mpr
    intro i hi
    rcases (mem_npWhereGt cdf q i).mp hi with ⟨h1, h2⟩
    exact h i h1 h2

end ExtractionLemmas

section BoundSpecLemmas

lemma getD_map_abs_half (cdf : List α) (j : ℕ) (hj : j < cdf.length) :
    (cdf.map (fun c => |c - 1 / 2|)).getD j 0 = |cdf.getD j 0 - 1 / 2| := by
  rw [List.getD_eq_getElem _ _ (by simpa using hj), List.getD_eq_getElem _ _ hj,
    List.getElem_map]

/-- When some CDF entry is below the threshold, `lowerLim` picks a support
value at a qualifying index, and it is the largest such support value
(support ascending). -/
lemma lowerLim_spec_exists (support cdf : List α) (p : α)
    (hlen : support.length = cdf.length)
    (hasc : ∀ j, j < support.length → ∀ i, i ≤ j →
      support.getD i 0 ≤ support.getD j 0)
    (h : ∃ i, i < cdf.length ∧ cdf.getD i 0 < p) :
    (∃ i, i < cdf.length ∧ cdf.getD i 0 < p ∧
      lowerLim support cdf p = support.getD i 0) ∧
    (∀ i, i < cdf.length → cdf.getD i 0 < p →
      support.getD i 0 ≤ lowerLim support cdf p) := by
  rcases h with ⟨i0, hi0, hlt0⟩
  have hmem0 : i0 ∈ npWhereLt cdf p := (mem_npWhereLt cdf p i0).mpr ⟨hi0, hlt0⟩
  have hne : npWhereLt cdf p ≠ [] := by
    intro h
    rw [h] at hmem0
    simp at hmem0
  rcases hL : (npWhereLt cdf p).getLast? with _ | L
  · rw [List.getLast?_eq_none_iff] at hL
    exact absurd hL hne
  · have hLmem : L ∈ npWhereLt cdf p := List.mem_of_getLast?_eq_some hL
    rcases (mem_npWhereLt cdf p L).mp hLmem with ⟨hLlt, hLval⟩
    have heq : lowerLim support cdf p = support.getD L 0 := by
      simp [lowerLim, hL]
    refine ⟨⟨L, hLlt, hLval, heq⟩, ?_⟩
    intro i hi hlt
    have hmem : i ∈ npWhereLt cdf p := (mem_npWhereLt cdf p i).mpr ⟨hi, hlt⟩
    have hile : i ≤ L := pairwise_le_getLast (npWhereLt_pairwise cdf p) hL i hmem
    rw [heq]
    exact hasc L (by omega) i hile

/-- When no CDF entry is below the threshold, `lowerLim` falls back to the
first support value. -/
lemma lowerLim_fallback (support cdf : List α) (p : α)
    (h : ∀ i, i < cdf.length → ¬ cdf.getD i 0 < p) :
    lowerLim support cdf p = support.headD 0 := by
  have hnil : npWhereLt cdf p = [] := (npWhereLt_eq_nil_iff cdf p).mpr h
  simp [lowerLim, hnil]

/-- When some CDF entry exceeds the threshold, `upperLim` picks a support
value at a qualifying index, and it is the smallest such support value. -/
lemma upperLim_spec_exists (support cdf : List α) (p : α)
    (hlen : support.length = cdf.length)
    (hasc : ∀ j, j < support.length → ∀ i, i ≤ j →
      support.getD i 0 ≤ support.getD j 0)
    (h : ∃ i, i < cdf.length ∧ 1 - p < cdf.getD i 0) :
    (∃ i, i < cdf.length ∧ 1 - p < cdf.getD i 0 ∧
      upperLim support cdf p = support.getD i 0) ∧
    (∀ i, i < cdf.length → 1 - p < cdf.getD i 0 →
      upperLim support cdf p ≤ support.getD i 0) := by
  rcases h with ⟨i0, hi0, hlt0⟩
  have hmem0 : i0 ∈ npWhereGt cdf (1 - p) :=
    (mem_npWhereGt cdf (1 - p) i0).mpr ⟨hi0, hlt0⟩
  have hne : npWhereGt cdf (1 - p) ≠ [] := by
    intro h
    rw [h] at hmem0
    simp at hmem0
  rcases hU : (npWhereGt cdf (1 - p)).head? with _ | U
  · rw [List.head?_eq_none_iff] at hU
    exact absurd hU hne
  · have hUmem : U ∈ npWhereGt cdf (1 - p) := List.mem_of_mem_head? (by rw [hU]; simp)
    rcases (mem_npWhereGt cdf (1 - p) U).mp hUmem with ⟨hUlt, hUval⟩
    have heq : upperLim support cdf p = support.getD U 0 := by
      simp [upperLim, hU]
    refine ⟨⟨U, hUlt, hUval, heq⟩, ?_⟩
    intro i hi hlt
    have hmem : i ∈ npWhereGt cdf (1 - p) :=
      (mem_npWhereGt cdf (1 - p) i).mpr ⟨hi, hlt⟩
    have hUle : U ≤ i := pairwise_head_le (npWhereGt_pairwise cdf (1 - p)) hU i hmem
    rw [heq]
    exact hasc i (by omega) U hUle

/-- When no CDF entry exceeds the threshold, `upperLim` falls back to the
last support value. -/
lemma upperLim_fallback (support cdf : List α) (p : α)
    (h : ∀ i, i < cdf.length → ¬ 1 - p < cdf.getD i 0) :
    upperLim support cdf p = support.getLastD 0 := by
  have hnil : npWhereGt cdf (1 - p) = [] := (npWhereGt_eq_nil_iff cdf (1 - p)).mpr h
  simp [upperLim, hnil]

/-- `mleVal` returns the support value at an index whose CDF entry minimises
the distance to one half. -/
lemma mleVal_spec (support cdf : List α) (hcne : cdf ≠ []) :
    ∃ m, m < cdf.length ∧ mleVal support cdf = support.getD m 0 ∧
      ∀ j, j < cdf.length → |cdf.getD m 0 - 1 / 2| ≤ |cdf.getD j 0 - 1 / 2| := by
  set f := fun c : α => |c - 1 / 2| with hf
  have hmne : cdf.map f ≠ [] := by
    simpa using hcne
  have hmlen : (cdf.map f).length = cdf.length := by simp
  refine ⟨npArgmin (cdf.map f), ?_, rfl, ?_⟩
  · have := npArgmin_lt_length (cdf.map f) hmne
    omega
  · intro j hj
    have h1 := npArgmin_le (cdf.map f) j (by omega)
    have hm : npArgmin (cdf.map f) < cdf.length := by
      have := npArgmin_lt_length (cdf.map f) hmne
      omega
    rw [getD_map_abs_half cdf j hj, getD_map_abs_half cdf _ hm] at h1
    exact h1

end BoundSpecLemmas

section RealLemmas

lemma integrableOn_exp_neg_sq_Iic :
    MeasureTheory.IntegrableOn (fun t : ℝ => Real.exp (-t ^ 2)) (Set.Iic 0) := by
  have h : MeasureTheory.Integrable (fun t : ℝ => Real.exp (-1 * t ^ 2)) :=
    integrable_exp_neg_mul_sq one_pos
  simpa [neg_one_mul] using h.integrableOn

lemma integral_Iic_exp_neg_sq :
    ∫ t in Set.Iic (0 : ℝ), Real.exp (-t ^ 2) = Real.sqrt Real.pi / 2 := by
  have h1 := integral_comp_neg_Iic (0 : ℝ) (fun t => Real.exp (-t ^ 2))
  have h2 := integral_gaussian_Ioi 1
  simp only [neg_sq, neg_zero] at h1
  simp only [neg_one_mul, one_mul, div_one] at h2
  rw [h1]
  simpa using h2

lemma intervalIntegral_exp_neg_sq_le (x : ℝ) (hx : x < 0) :
    ∫ t in x..(0 : ℝ), Real.exp (-t ^ 2) ≤ Real.sqrt Real.pi / 2 := by
  rw [intervalIntegral.integral_of_le (le_of_lt hx)]
  calc ∫ t in Set.Ioc x 0, Real.exp (-t ^ 2)
      ≤ ∫ t in Set.Iic (0 : ℝ), Real.exp (-t ^ 2) := by
        apply MeasureTheory.setIntegral_mono_set integrableOn_exp_neg_sq_Iic
        · exact Filter.Eventually.of_forall (fun t => (Real.exp_pos _).le)
        · exact HasSubset.Subset.eventuallyLE Set.Ioc_subset_Iic_self
    _ = Real.sqrt Real.pi / 2 := integral_Iic_exp_neg_sq

/-- The modelled error function never goes below -1, hence the factor
`1 + erf (...)` in the skew-normal density is non-negative. -/
lemma neg_one_le_erf (x : ℝ) : -1 ≤ erf x := by
  have hπ : (0 : ℝ) < Real.sqrt Real.pi := Real.sqrt_pos.mpr Real.pi_pos
  rcases le_or_lt 0 x with hx | hx
  · have hI : 0 ≤ ∫ t in (0 : ℝ)..x, Real.exp (-t ^ 2) :=
      intervalIntegral.integral_nonneg hx (fun u _ => (Real.exp_pos _).le)
    have h0 : 0 ≤ erf x := mul_nonneg (by positivity) hI
    linarith
  · have hsymm : ∫ t in (0 : ℝ)..x, Real.exp (-t ^ 2)
        = -(∫ t in x..(0 : ℝ), Real.exp (-t ^ 2)) :=
      intervalIntegral.integral_symm x 0
    have hle := intervalIntegral_exp_neg_sq_le x hx
    have hpos : (0 : ℝ) < 2 / Real.sqrt Real.pi := by positivity
    have h2 : (2 / Real.sqrt Real.pi) * (Real.sqrt Real.pi / 2) = 1 := by
      field_simp
    have h3 := mul_le_mul_of_nonneg_left hle (le_of_lt hpos)
    rw [h2] at h3
    show -1 ≤ (2 / Real.sqrt Real.pi) * ∫ t in (0 : ℝ)..x, Real.exp (-t ^ 2)
    rw [hsymm, mul_neg]
    linarith

lemma erf_zero : erf 0 = 0 := by
  simp [erf, intervalIntegral.integral_same]

lemma norm_pdf_nonneg (x mu sigma : ℝ) (hs : 0 < sigma) : 0 ≤ norm_pdf x mu sigma := by
  apply mul_nonneg
  · apply div_nonneg zero_le_one
    exact mul_nonneg hs.le (Real.sqrt_nonneg _)
  · exact (Real.exp_pos _).le

lemma skew_normal_fn_nonneg (x mu sigma alpha : ℝ) (hs : 0 < sigma) :
    0 ≤ skew_normal_fn Real.exp erf (Real.sqrt 2) x mu sigma alpha := by
  unfold skew_normal_fn
  apply mul_nonneg (mul_nonneg _ (Real.exp_pos _).le)
  · have := neg_one_le_erf (alpha * (x - mu) / (Real.sqrt 2 * sigma))
    linarith
  · positivity

end RealLemmas

section EstimatorLemmas

lemma getD_map_of_lt {β γ : Type} (f : β → γ) (l : List β) (i : ℕ)
    (h : i < l.length) (d : γ) (d' : β) : (l.map f).getD i d = f (l.getD i d') := by
  rw [List.getD_eq_getElem _ _ (by simpa using h), List.getD_eq_getElem _ _ h,
    List.getElem_map]

lemma shapeOf_length_eq {β γ : Type} {a : List (List β)} {b : List (List γ)}
    (h : shapeOf a = shapeOf b) : a.length = b.length := by
  have := congrArg List.length h
  simpa [shapeOf] using this

lemma inner_length_eq {β γ : Type} {a : List (List β)} {b : List (List γ)}
    (h : shapeOf a = shapeOf b) (i : ℕ) (hi : i < a.length) :
    (a.getD i []).length = (b.getD i []).length := by
  have hlen : a.length = b.length := shapeOf_length_eq h
  have h1 : (shapeOf a).getD i 0 = (a.getD i []).length :=
    getD_map_of_lt List.length a i hi 0 []
  have h2 : (shapeOf b).getD i 0 = (b.getD i []).length :=
    getD_map_of_lt List.length b i (by omega) 0 []
  rw [h] at h1
  omega

lemma priorVals_length (prior_pdf : Option (α → α)) (support : List α) :
    (priorVals prior_pdf support).length = support.length := by
  cases prior_pdf with
  | none => simp [priorVals]
  | some f =>
      by_cases h : (support.map f).sum = 0 <;> simp [priorVals, h]

lemma priorVals_nonneg (prior_pdf : Option (α → α)) (support : List α)
    (hf : ∀ g, prior_pdf = some g → ∀ s ∈ support, 0 ≤ g s) :
    ∀ y ∈ priorVals prior_pdf support, 0 ≤ y := by
  intro y hy
  cases prior_pdf with
  | none =>
      simp only [priorVals] at hy
      rcases List.mem_map.mp hy with ⟨x, _, rfl⟩
      exact zero_le_one
  | some g =>
      simp only [priorVals] at hy
      split at hy
      · rcases List.mem_map.mp hy with ⟨x, _, rfl⟩
        exact zero_le_one
      · rcases List.mem_map.mp hy with ⟨x, hx, rfl⟩
        exact hf g rfl x hx

lemma binomPMF_nonneg (k n : ℕ) (p : α) (h0 : 0 ≤ p) (h1 : p ≤ 1) :
    0 ≤ binomPMF k n p := by
  unfold binomPMF
  apply mul_nonneg (mul_nonneg _ _)
  · exact pow_nonneg (by linarith) _
  · exact Nat.cast_nonneg _
  · exact pow_nonneg h0 _

lemma binomEventPdf_nonneg (prior_pdf : Option (α → α)) (support : List α)
    (rv n : List ℕ) (p : List α) (hp : ∀ x ∈ p, 0 ≤ x ∧ x ≤ 1)
    (hf : ∀ g, prior_pdf = some g → ∀ s ∈ support, 0 ≤ g s) :
    ∀ z ∈ binomEventPdf prior_pdf support rv n p, 0 ≤ z := by
  intro z hz
  rcases of_mem_zipWith hz with ⟨a, ha, b, hb, rfl⟩
  apply mul_nonneg
  · rcases of_mem_zipWith3 ha with ⟨k, _, m, _, q, hq, rfl⟩
    exact binomPMF_nonneg k m q (hp q hq).1 (hp q hq).2
  · exact priorVals_nonneg prior_pdf support hf b hb

lemma binomEventPdf_length (prior_pdf : Option (α → α)) (support : List α)
    (rv n : List ℕ) (p : List α) (h1 : rv.length = support.length)
    (h2 : n.length = support.length) (h3 : p.length = support.length) :
    (binomEventPdf prior_pdf support rv n p).length = support.length := by
  unfold binomEventPdf
  rw [List.length_zipWith, length_zipWith3, priorVals_length]
  omega

lemma normal_event_nonneg (rv mu sig : List ℝ) (hs : ∀ s ∈ sig, 0 < s) :
    ∀ z ∈ zipWith3 norm_pdf rv mu sig, 0 ≤ z := by
  intro z hz
  rcases of_mem_zipWith3 hz with ⟨x, _, y, _, w, hw, rfl⟩
  exact norm_pdf_nonneg x y w (hs w hw)

lemma skew_event_nonneg (rv mu sig al : List ℝ) (hs : ∀ s ∈ sig, 0 < s) :
    ∀ z ∈ zipWith4 (skew_normal_fn Real.exp erf (Real.sqrt 2)) rv mu sig al, 0 ≤ z := by
  intro z hz
  rcases of_mem_zipWith4 hz with ⟨x, _, y, _, w, hw, v, _, rfl⟩
  exact skew_normal_fn_nonneg x y w v (hs w hw)

end EstimatorLemmas

section EstimatorEventLemmas

lemma bayes_bounds_binomial_event (supports : List (List α))
    (rvs ns : List (List ℕ)) (ps : List (List α)) (prior : Option (α → α))
    (h1 : shapeOf rvs = shapeOf ns) (h2 : shapeOf ns = shapeOf ps)
    (h3 : shapeOf ps = shapeOf supports) (i : ℕ) (hi : i < supports.length) :
    ∃ cdfs, bayes_bounds_binomial supports rvs ns ps prior = Except.ok cdfs ∧
      cdfs.getD i [] = cumsum (normalize (binomEventPdf prior (supports.getD i [])
        (rvs.getD i []) (ns.getD i []) (ps.getD i []))) := by
  have la : rvs.length = supports.length :=
    shapeOf_length_eq (h1.trans (h2.trans h3))
  have lb : ns.length = supports.length := shapeOf_length_eq (h2.trans h3)
  have lc : ps.length = supports.length := shapeOf_length_eq h3
  refine ⟨((zipWith4 (fun rv_binom n_binom p_binom support =>
      binomEventPdf prior support rv_binom n_binom p_binom)
      rvs ns ps supports).map normalize).map cumsum, ?_, ?_⟩
  · unfold bayes_bounds_binomial
    rw [if_pos ⟨h1, h2, h3⟩]
  · have hzlen : (zipWith4 (fun rv_binom n_binom p_binom support =>
        binomEventPdf prior support rv_binom n_binom p_binom)
        rvs ns ps supports).length = supports.length := by
      rw [length_zipWith4]
      omega
    rw [getD_map_of_lt cumsum _ i (by simp [hzlen]; omega) [] [],
      getD_map_of_lt normalize _ i (by rw [hzlen]; omega) [] [],
      zipWith4_getD _ rvs ns ps supports i (by omega) (by omega) (by omega) hi
        [] [] [] [] []]

lemma bayes_bounds_normal_event (npdf : α → α → α → α) (supports : List (List α))
    (rvs mus sigmas : List (List α))
    (h1 : shapeOf rvs = shapeOf mus) (h2 : shapeOf mus = shapeOf sigmas)
    (h3 : shapeOf sigmas = shapeOf supports) (i : ℕ) (hi : i < supports.length) :
    ∃ cdfs, bayes_bounds_normal npdf supports rvs mus sigmas = Except.ok cdfs ∧
      cdfs.getD i [] = cumsum (normalize (zipWith3 npdf
        (rvs.getD i []) (mus.getD i []) (sigmas.getD i []))) := by
  have la : rvs.length = supports.length :=
    shapeOf_length_eq (h1.trans (h2.trans h3))
  have lb : mus.length = supports.length := shapeOf_length_eq (h2.trans h3)
  have lc : sigmas.length = supports.length := shapeOf_length_eq h3
  refine ⟨((zipWith3 (fun rv_normal mu_normal sigma_normal =>
      zipWith3 npdf rv_normal mu_normal sigma_normal)
      rvs mus sigmas).map normalize).map cumsum, ?_, ?_⟩
  · unfold bayes_bounds_normal
    rw [if_pos ⟨h1, h2, h3⟩]
  · have hzlen : (zipWith3 (fun rv_normal mu_normal sigma_normal =>
        zipWith3 npdf rv_normal mu_normal sigma_normal)
        rvs mus sigmas).length = supports.length := by
      rw [length_zipWith3]
      omega
    rw [getD_map_of_lt cumsum _ i (by simp [hzlen]; omega) [] [],
      getD_map_of_lt normalize _ i (by rw [hzlen]; omega) [] [],
      zipWith3_getD _ rvs mus sigmas i (by omega) (by omega) (by omega)
        [] [] [] []]

lemma bayes_bounds_skew_normal_event (expf erff : α → α) (sqrt2 : α)
    (supports rvs mus sigmas alphas : List (List α))
    (h1 : shapeOf rvs = shapeOf mus) (h2 : shapeOf mus = shapeOf sigmas)
    (h3 : shapeOf sigmas = shapeOf supports) (h4 : shapeOf alphas = shapeOf supports)
    (i : ℕ) (hi : i < supports.length) :
    ∃ cdfs, bayes_bounds_skew_normal expf erff sqrt2 supports rvs mus sigmas alphas
        = Except.ok cdfs ∧
      cdfs.getD i [] = cumsum (normalize (zipWith4 (skew_normal_fn expf erff sqrt2)
        (rvs.getD i []) (mus.getD i []) (sigmas.getD i []) (alphas.getD i []))) := by
  have la : rvs.length = supports.length :=
    shapeOf_length_eq (h1.trans (h2.trans h3))
  have lb : mus.length = supports.length := shapeOf_length_eq (h2.trans h3)
  have lc : sigmas.length = supports.length := shapeOf_length_eq h3
  have ld : alphas.length = supports.length := shapeOf_length_eq h4
  refine ⟨((zipWith5 (fun rv mu sigma alpha _support =>
      zipWith4 (skew_normal_fn expf erff sqrt2) rv mu sigma alpha)
      rvs mus sigmas alphas supports).map normalize).map cumsum, ?_, ?_⟩
  · unfold bayes_bounds_skew_normal
    rw [if_pos ⟨h1, h2, h3⟩]
  · have hzlen : (zipWith5 (fun rv mu sigma alpha _support =>
        zipWith4 (skew_normal_fn expf erff sqrt2) rv mu sigma alpha)
        rvs mus sigmas alphas supports).length = supports.length := by
      rw [length_zipWith5]
      omega
    rw [getD_map_of_lt cumsum _ i (by simp [hzlen]; omega) [] [],
      getD_map_of_lt normalize _ i (by rw [hzlen]; omega) [] [],
      zipWith5_getD _ rvs mus sigmas alphas supports i (by omega) (by omega)
        (by omega) (by omega) hi [] [] [] [] [] []]

end EstimatorEventLemmas

section Claims

/-- C2: for every event whose probability-mass vector over its support has
positive (finite) sum, the per-event CDF array returned by the binomial,
normal and skew-normal estimators is monotonically non-decreasing, has
length equal to that event's support length, and its final element equals 1
(exactly, in exact arithmetic, which is the "within floating tolerance"
statement of the spec).  Validity side conditions on the parameters:
binomial success probabilities lie in [0,1] and any prior density is
non-negative on the support; normal and skew-normal sigmas are positive;
for the skew-normal the (unasserted) alphas array has the support shape. -/
theorem c2_cdf_invariants :
    (∀ (α : Type) [LinearOrderedField α], ∀ (supports : List (List α))
      (rvs ns : List (List ℕ)) (ps : List (List α)) (prior : Option (α → α)) (i : ℕ),
      shapeOf rvs = shapeOf ns → shapeOf ns = shapeOf ps →
      shapeOf ps = shapeOf supports → i < supports.length →
      (∀ x ∈ ps.getD i [], 0 ≤ x ∧ x ≤ 1) →
      (∀ g, prior = some g → ∀ s ∈ supports.getD i [], 0 ≤ g s) →
      0 < (binomEventPdf prior (supports.getD i []) (rvs.getD i []) (ns.getD i [])
        (ps.getD i [])).sum →
      ∃ cdfs, bayes_bounds_binomial supports rvs ns ps prior = Except.ok cdfs ∧
        (cdfs.getD i []).length = (supports.getD i []).length ∧
        (∀ a b, a ≤ b → b < (cdfs.getD i []).length →
          (cdfs.getD i []).getD a 0 ≤ (cdfs.getD i []).getD b 0) ∧
        (cdfs.getD i []).getLast? = some 1) ∧
    (∀ (supports rvs mus sigmas : List (List ℝ)) (i : ℕ),
      shapeOf rvs = shapeOf mus → shapeOf mus = shapeOf sigmas →
      shapeOf sigmas = shapeOf supports → i < supports.length →
      (∀ s ∈ sigmas.getD i [], 0 < s) →
      0 < (zipWith3 norm_pdf (rvs.getD i []) (mus.getD i []) (sigmas.getD i [])).sum →
      ∃ cdfs, bayes_bounds_normal norm_pdf supports rvs mus sigmas = Except.ok cdfs ∧
        (cdfs.getD i []).length = (supports.getD i []).length ∧
        (∀ a b, a ≤ b → b < (cdfs.getD i []).length →
          (cdfs.getD i []).getD a 0 ≤ (cdfs.getD i []).getD b 0) ∧
        (cdfs.getD i []).getLast? = some 1) ∧
    (∀ (supports rvs mus sigmas alphas : List (List ℝ)) (i : ℕ),
      shapeOf rvs = shapeOf mus → shapeOf mus = shapeOf sigmas →
      shapeOf sigmas = shapeOf supports → shapeOf alphas = shapeOf supports →
      i < supports.length →
      (∀ s ∈ sigmas.getD i [], 0 < s) →
      0 < (zipWith4 (skew_normal_fn Real.exp erf (Real.sqrt 2)) (rvs.getD i [])
        (mus.getD i []) (sigmas.getD i []) (alphas.getD i [])).sum →
      ∃ cdfs, bayes_bounds_skew_normal Real.exp erf (Real.sqrt 2) supports rvs mus
          sigmas alphas = Except.ok cdfs ∧
        (cdfs.getD i []).length = (supports.getD i []).length ∧
        (∀ a b, a ≤ b → b < (cdfs.getD i []).length →
          (cdfs.getD i []).getD a 0 ≤ (cdfs.getD i []).getD b 0) ∧
        (cdfs.getD i []).getLast? = some 1) := by
  refine ⟨?_, ?_, ?_⟩
  · intro α inst supports rvs ns ps prior i h1 h2 h3 hi hp hprior hsum
    obtain ⟨cdfs, hok, hev⟩ :=
      bayes_bounds_binomial_event supports rvs ns ps prior h1 h2 h3 i hi
    set l := binomEventPdf prior (supports.getD i []) (rvs.getD i [])
      (ns.getD i []) (ps.getD i []) with hl
    obtain ⟨hlen, hmono, hlast⟩ := cdf_props l
      (binomEventPdf_nonneg prior _ _ _ _ hp hprior) hsum
    have hlrv : (rvs.getD i []).length = (supports.getD i []).length :=
      inner_length_eq (h1.trans (h2.trans h3)) i
        (by rw [shapeOf_length_eq (h1.trans (h2.trans h3))]; omega)
    have hlns : (ns.getD i []).length = (supports.getD i []).length :=
      inner_length_eq (h2.trans h3) i
        (by rw [shapeOf_length_eq (h2.trans h3)]; omega)
    have hlps : (ps.getD i []).length = (supports.getD i []).length :=
      inner_length_eq h3 i (by rw [shapeOf_length_eq h3]; omega)
    have hplen : l.length = (supports.getD i []).length :=
      binomEventPdf_length prior _ _ _ _ hlrv hlns hlps
    refine ⟨cdfs, hok, ?_, ?_, ?_⟩
    · rw [hev, hlen, hplen]
    · intro a b hab hb
      rw [hev] at hb ⊢
      apply hmono a b hab
      rw [length_cumsum, length_normalize] at hb
      omega
    · rw [hev]
      exact hlast
  · intro supports rvs mus sigmas i h1 h2 h3 hi hs hsum
    obtain ⟨cdfs, hok, hev⟩ :=
      bayes_bounds_normal_event norm_pdf supports rvs mus sigmas h1 h2 h3 i hi
    set l := zipWith3 norm_pdf (rvs.getD i []) (mus.getD i []) (sigmas.getD i [])
      with hl
    obtain ⟨hlen, hmono, hlast⟩ := cdf_props l
      (normal_event_nonneg _ _ _ hs) hsum
    have hlrv : (rvs.getD i []).length = (supports.getD i []).length :=
      inner_length_eq (h1.trans (h2.trans h3)) i
        (by rw [shapeOf_length_eq (h1.trans (h2.trans h3))]; omega)
    have hlmu : (mus.getD i []).length = (supports.getD i []).length :=
      inner_length_eq (h2.trans h3) i
        (by rw [shapeOf_length_eq (h2.trans h3)]; omega)
    have hlsg : (sigmas.getD i []).length = (supports.getD i []).length :=
      inner_length_eq h3 i (by rw [shapeOf_length_eq h3]; omega)
    have hplen : l.length = (supports.getD i []).length := by
      rw [hl, length_zipWith3]
      omega
    refine ⟨cdfs, hok, ?_, ?_, ?_⟩
    · rw [hev, hlen, hplen]
    · intro a b hab hb
      rw [hev] at hb ⊢
      apply hmono a b hab
      rw [length_cumsum, length_normalize] at hb
      omega
    · rw [hev]
      exact hlast
  · intro supports rvs mus sigmas alphas i h1 h2 h3 h4 hi hs hsum
    obtain ⟨cdfs, hok, hev⟩ := bayes_bounds_skew_normal_event Real.exp erf
      (Real.sqrt 2) supports rvs mus sigmas alphas h1 h2 h3 h4 i hi
    set l := zipWith4 (skew_normal_fn Real.exp erf (Real.sqrt 2)) (rvs.getD i [])
      (mus.getD i []) (sigmas.getD i []) (alphas.getD i []) with hl
    obtain ⟨hlen, hmono, hlast⟩ := cdf_props l
      (skew_event_nonneg _ _ _ _ hs) hsum
    have hlrv : (rvs.getD i []).length = (supports.getD i []).length :=
      inner_length_eq (h1.trans (h2.trans h3)) i
        (by rw [shapeOf_length_eq (h1.trans (h2.trans h3))]; omega)
    have hlmu : (mus.getD i []).length = (supports.getD i []).length :=
      inner_length_eq (h2.trans h3) i
        (by rw [shapeOf_length_eq (h2.trans h3)]; omega)
    have hlsg : (sigmas.getD i []).length = (supports.getD i []).length :=
      inner_length_eq h3 i (by rw [shapeOf_length_eq h3]; omega)
    have hlal : (alphas.getD i []).length = (supports.getD i []).length :=
      inner_length_eq h4 i (by rw [shapeOf_length_eq h4]; omega)
    have hplen : l.length = (supports.getD i []).length := by
      rw [hl, length_zipWith4]
      omega
    refine ⟨cdfs, hok, ?_, ?_, ?_⟩
    · rw [hev, hlen, hplen]
    · intro a b hab hb
      rw [hev] at hb ⊢
      apply hmono a b hab
      rw [length_cumsum, length_normalize] at hb
      omega
    · rw [hev]
      exact hlast

/-- C2 witness: the three estimators at one-point supports — binomial with
`rv = 0`, `n = 0`, `p = 1/2` and no prior over `ℚ`; normal with `mu = 0`,
`sigma = 1` and skew-normal additionally with `alpha = 0` over `ℝ`. -/
theorem c2_cdf_invariants_witness :
    (∃ cdfs, bayes_bounds_binomial (α := ℚ) [[0]] [[0]] [[0]] [[1/2]] none
        = Except.ok cdfs ∧
      (cdfs.getD 0 []).length = ([0] : List ℚ).length ∧
      (∀ a b, a ≤ b → b < (cdfs.getD 0 []).length →
        (cdfs.getD 0 []).getD a 0 ≤ (cdfs.getD 0 []).getD b 0) ∧
      (cdfs.getD 0 []).getLast? = some 1) ∧
    (∃ cdfs, bayes_bounds_normal norm_pdf [[0]] [[0]] [[0]] [[1]]
        = Except.ok cdfs ∧
      (cdfs.getD 0 []).length = ([0] : List ℝ).length ∧
      (∀ a b, a ≤ b → b < (cdfs.getD 0 []).length →
        (cdfs.getD 0 []).getD a 0 ≤ (cdfs.getD 0 []).getD b 0) ∧
      (cdfs.getD 0 []).getLast? = some 1) ∧
    (∃ cdfs, bayes_bounds_skew_normal Real.exp erf (Real.sqrt 2) [[0]] [[0]]
        [[0]] [[1]] [[0]] = Except.ok cdfs ∧
      (cdfs.getD 0 []).length = ([0] : List ℝ).length ∧
      (∀ a b, a ≤ b → b < (cdfs.getD 0 []).length →
        (cdfs.getD 0 []).getD a 0 ≤ (cdfs.getD 0 []).getD b 0) ∧
      (cdfs.getD 0 []).getLast? = some 1) := by
  refine ⟨?_, ?_, ?_⟩
  · exact c2_cdf_invariants.1 ℚ [[0]] [[0]] [[0]] [[1/2]] none 0 (by decide)
      (by decide) (by decide) (by decide) (by norm_num) (by simp)
      (by norm_num [binomEventPdf, zipWith3, priorVals, binomPMF])
  · exact c2_cdf_invariants.2.1 [[0]] [[0]] [[0]] [[1]] 0 (by decide) (by decide)
      (by decide) (by decide) (by norm_num)
      (by simp [zipWith3, norm_pdf]
          positivity)
  · exact c2_cdf_invariants.2.2 [[0]] [[0]] [[0]] [[1]] [[0]] 0 (by decide)
      (by decide) (by decide) (by decide) (by decide) (by norm_num)
      (by simp [zipWith4, skew_normal_fn, erf_zero, Real.exp_zero])

/-- C3: per event, given its CDF over a non-empty ascending support, the
bound extraction of `bayes_bounds` returns: as lower bound the largest
support value whose CDF value is `< bounds_prob` (falling back to the
smallest support value when none is); as upper bound the smallest support
value whose CDF value exceeds `1 - bounds_prob` (falling back to the
largest support value); and as most-likely bound a support value whose CDF
value minimises the distance to one half. -/
theorem c3_bound_extraction (support cdf : List α) (p : α)
    (hne : support ≠ [])
    (hlen : support.length = cdf.length)
    (hasc : ∀ j, j < support.length → ∀ i, i ≤ j →
      support.getD i 0 ≤ support.getD j 0) :
    ((∃ i, i < cdf.length ∧ cdf.getD i 0 < p) →
      (∃ i, i < cdf.length ∧ cdf.getD i 0 < p ∧
        lowerLim support cdf p = support.getD i 0) ∧
      (∀ i, i < cdf.length → cdf.getD i 0 < p →
        support.getD i 0 ≤ lowerLim support cdf p)) ∧
    ((∀ i, i < cdf.length → ¬ cdf.getD i 0 < p) →
      lowerLim support cdf p = support.headD 0 ∧
      (∀ i, i < support.length → support.headD 0 ≤ support.getD i 0)) ∧
    ((∃ i, i < cdf.length ∧ 1 - p < cdf.getD i 0) →
      (∃ i, i < cdf.length ∧ 1 - p < cdf.getD i 0 ∧
        upperLim support cdf p = support.getD i 0) ∧
      (∀ i, i < cdf.length → 1 - p < cdf.getD i 0 →
        upperLim support cdf p ≤ support.getD i 0)) ∧
    ((∀ i, i < cdf.length → ¬ 1 - p < cdf.getD i 0) →
      upperLim support cdf p = support.getLastD 0 ∧
      (∀ i, i < support.length → support.getD i 0 ≤ support.getLastD 0)) ∧
    (∃ m, m < cdf.length ∧ mleVal support cdf = support.getD m 0 ∧
      ∀ j, j < cdf.length → |cdf.getD m 0 - 1 / 2| ≤ |cdf.getD j 0 - 1 / 2|) := by
  have hpos : 0 < support.length := List.length_pos.mpr hne
  refine ⟨?_, ?_, ?_, ?_, ?_⟩
  · exact lowerLim_spec_exists support cdf p hlen hasc
  · intro h
    refine ⟨lowerLim_fallback support cdf p h, ?_⟩
    intro i hi
    rw [headD_eq_getD support hne]
    exact hasc i hi 0 (Nat.zero_le i)
  · exact upperLim_spec_exists support cdf p hlen hasc
  · intro h
    refine ⟨upperLim_fallback support cdf p h, ?_⟩
    intro i hi
    rw [getLastD_eq_getD support hne]
    exact hasc (support.length - 1) (by omega) i (by omega)
  · exact mleVal_spec support cdf (by
      intro h
      rw [h] at hlen
      simp at hlen
      exact hne hlen)

/-- C3 witness: the extraction rules at support `[0, 1, 2]`,
CDF `[1/4, 1/2, 1]` and credible probability `2/5`. -/
theorem c3_bound_extraction_witness :
    ((∃ i, i < ([1/4, 1/2, 1] : List ℚ).length ∧
        ([1/4, 1/2, 1] : List ℚ).getD i 0 < 2/5 ∧
        lowerLim ([0, 1, 2] : List ℚ) [1/4, 1/2, 1] (2/5) = ([0, 1, 2] : List ℚ).getD i 0) ∧
      (∀ i, i < ([1/4, 1/2, 1] : List ℚ).length →
        ([1/4, 1/2, 1] : List ℚ).getD i 0 < 2/5 →
        ([0, 1, 2] : List ℚ).getD i 0 ≤ lowerLim ([0, 1, 2] : List ℚ) [1/4, 1/2, 1] (2/5))) ∧
    ((∃ i, i < ([1/4, 1/2, 1] : List ℚ).length ∧
        1 - 2/5 < ([1/4, 1/2, 1] : List ℚ).getD i 0 ∧
        upperLim ([0, 1, 2] : List ℚ) [1/4, 1/2, 1] (2/5) = ([0, 1, 2] : List ℚ).getD i 0) ∧
      (∀ i, i < ([1/4, 1/2, 1] : List ℚ).length →
        1 - 2/5 < ([1/4, 1/2, 1] : List ℚ).getD i 0 →
        upperLim ([0, 1, 2] : List ℚ) [1/4, 1/2, 1] (2/5) ≤ ([0, 1, 2] : List ℚ).getD i 0)) ∧
    (∃ m, m < ([1/4, 1/2, 1] : List ℚ).length ∧
      mleVal ([0, 1, 2] : List ℚ) [1/4, 1/2, 1] = ([0, 1, 2] : List ℚ).getD m 0 ∧
      ∀ j, j < ([1/4, 1/2, 1] : List ℚ).length →
        |([1/4, 1/2, 1] : List ℚ).getD m 0 - 1/2| ≤ |([1/4, 1/2, 1] : List ℚ).getD j 0 - 1/2|) := by
  have h := c3_bound_extraction ([0, 1, 2] : List ℚ) [1/4, 1/2, 1] (2/5)
    (by simp) (by simp)
    (by intro j hj i hij
        simp at hj
        interval_cases j <;> interval_cases i <;> norm_num)
  exact ⟨h.1 ⟨0, by norm_num⟩, h.2.2.1 ⟨2, by norm_num⟩, h.2.2.2.2⟩

/-- C5 counterexample: with ascending support `[10, 20, 30]`, CDF
`[3/10, 3/5, 1]` and credible probability `1`, the probability is at (hence
at or above) the maximum attainable CDF value `1`, yet the extracted lower
bound is `20`, not the support minimum `10`: the lower-bound fallback
condition in the code is `p` at or below the minimum CDF value, not at or
above the maximum. -/
theorem c5_counterexample :
    (∀ c ∈ ([3/10, 3/5, 1] : List ℚ), c ≤ 1) ∧
    lowerLim ([10, 20, 30] : List ℚ) [3/10, 3/5, 1] 1 = 20 ∧
    ((20 : ℚ) ≠ 10) ∧ (∀ y ∈ ([10, 20, 30] : List ℚ), 10 ≤ y) := by
  refine ⟨by norm_num, ?_, by norm_num, by norm_num⟩
  norm_num [lowerLim, npWhereLt, List.range_succ]

/-- C5 (amended): the lower-bound fallback returns the support minimum
exactly when the credible probability is at or below the minimum attainable
CDF value (all CDF entries are `≥ p`); symmetrically the upper-bound
fallback returns the support maximum when `1 - p` is at or above the
maximum attainable CDF value (all CDF entries are `≤ 1 - p`). -/
theorem c5_fallback_bounds (support cdf : List α) (p : α)
    (hne : support ≠ [])
    (hlen : support.length = cdf.length)
    (hasc : ∀ j, j < support.length → ∀ i, i ≤ j →
      support.getD i 0 ≤ support.getD j 0) :
    ((∀ c ∈ cdf, p ≤ c) →
      lowerLim support cdf p = support.headD 0 ∧
      (∀ y ∈ support, support.headD 0 ≤ y)) ∧
    ((∀ c ∈ cdf, c ≤ 1 - p) →
      upperLim support cdf p = support.getLastD 0 ∧
      (∀ y ∈ support, y ≤ support.getLastD 0)) := by
  have hpos : 0 < support.length := List.length_pos.mpr hne
  constructor
  · intro h
    refine ⟨lowerLim_fallback support cdf p ?_, ?_⟩
    · intro i hi
      have hmem : cdf.getD i 0 ∈ cdf := by
        rw [List.getD_eq_getElem _ _ hi]
        exact List.getElem_mem hi
      exact not_lt.mpr (h _ hmem)
    · intro y hy
      rcases List.mem_iff_getElem.mp hy with ⟨i, hilt, rfl⟩
      rw [headD_eq_getD support hne, ← List.getD_eq_getElem support 0 hilt]
      exact hasc i hilt 0 (Nat.zero_le i)
  · intro h
    refine ⟨upperLim_fallback support cdf p ?_, ?_⟩
    · intro i hi
      have hmem : cdf.getD i 0 ∈ cdf := by
        rw [List.getD_eq_getElem _ _ hi]
        exact List.getElem_mem hi
      exact not_lt.mpr (h _ hmem)
    · intro y hy
      rcases List.mem_iff_getElem.mp hy with ⟨i, hilt, rfl⟩
      rw [getLastD_eq_getD support hne, ← List.getD_eq_getElem support 0 hilt]
      exact hasc (support.length - 1) (by omega) i (by omega)

/-- C5 witness: both fallbacks at support `[5, 6]` and CDF `[1/2, 1]` —
with credible probability `1/4` every CDF entry is at least `1/4`, so the
lower bound falls back to the support minimum `5`; with credible
probability `0` every CDF entry is at most `1`, so the upper bound falls
back to the support maximum `6`. -/
theorem c5_fallback_bounds_witness :
    (lowerLim ([5, 6] : List ℚ) [1/2, 1] (1/4) = ([5, 6] : List ℚ).headD 0 ∧
      (∀ y ∈ ([5, 6] : List ℚ), ([5, 6] : List ℚ).headD 0 ≤ y)) ∧
    (upperLim ([5, 6] : List ℚ) [1/2, 1] 0 = ([5, 6] : List ℚ).getLastD 0 ∧
      (∀ y ∈ ([5, 6] : List ℚ), y ≤ ([5, 6] : List ℚ).getLastD 0)) := by
  constructor
  · exact (c5_fallback_bounds ([5, 6] : List ℚ) [1/2, 1] (1/4) (by simp) (by simp)
      (by intro j hj i hij
          simp at hj
          interval_cases j <;> interval_cases i <;> norm_num)).1 (by norm_num)
  · exact (c5_fallback_bounds ([5, 6] : List ℚ) [1/2, 1] 0 (by simp) (by simp)
      (by intro j hj i hij
          simp at hj
          interval_cases j <;> interval_cases i <;> norm_num)).2 (by norm_num)

/-- C6 counterexample: the CDF `[2/5, 2/5, 1]` is produced by the binomial
estimator itself (support `[0, 1, 2]`, one Bernoulli trial per point,
success probabilities `[2/5, 0, 3/5]`, no prior), the support is ascending
and the credible probability `9/20` lies in `(0, 1)`, yet the lower bound
`1` exceeds the most-likely bound `0`: where the CDF is flat, `np.where`
takes the last qualifying index while `np.argmin` takes the first. -/
theorem c6_counterexample :
    bayes_bounds_binomial (α := ℚ) [[0, 1, 2]] [[1, 1, 1]] [[1, 1, 1]]
        [[2/5, 0, 3/5]] none = Except.ok [[2/5, 2/5, 1]] ∧
    (0 < (9 : ℚ)/20 ∧ (9 : ℚ)/20 < 1) ∧
    lowerLim ([0, 1, 2] : List ℚ) [2/5, 2/5, 1] (9/20) = 1 ∧
    mleVal ([0, 1, 2] : List ℚ) [2/5, 2/5, 1] = 0 ∧
    ¬ ((1 : ℚ) ≤ 0) := by
  refine ⟨?_, by norm_num, ?_, ?_, by norm_num⟩
  · norm_num [bayes_bounds_binomial, shapeOf, zipWith4, zipWith3, binomEventPdf,
      priorVals, binomPMF, normalize, cumsum, cumsumFrom]
  · norm_num [lowerLim, npWhereLt, List.range_succ]
  · norm_num [mleVal, npArgmin, abs, max_def]

/-- C6 (amended): when the three bounds are extracted from the same
strictly-increasing CDF over the same non-empty ascending support with the
same credible probability in `(0, 1/2]`, they are ordered:
`lower ≤ most-likely ≤ upper`.  (Strict CDF increase rules out the flat
tie broken differently by the last-index `np.where` and first-index
`np.argmin`; `p ≤ 1/2` keeps the lower threshold on the left half.) -/
theorem c6_bound_ordering (support cdf : List α) (p : α)
    (hne : support ≠ [])
    (hlen : support.length = cdf.length)
    (hasc : ∀ j, j < support.length → ∀ i, i ≤ j →
      support.getD i 0 ≤ support.getD j 0)
    (hstrict : ∀ j, j < cdf.length → ∀ i, i < j →
      cdf.getD i 0 < cdf.getD j 0)
    (_hp0 : 0 < p) (hp2 : p ≤ 1 / 2) :
    lowerLim support cdf p ≤ mleVal support cdf ∧
    mleVal support cdf ≤ upperLim support cdf p := by
  have hpos : 0 < support.length := List.length_pos.mpr hne
  have hcne : cdf ≠ [] := by
    intro h
    rw [h] at hlen
    simp at hlen
    exact hne hlen
  have hmne : cdf.map (fun c => |c - 1 / 2|) ≠ [] := by simpa using hcne
  have hM : npArgmin (cdf.map (fun c => |c - 1 / 2|)) < cdf.length := by
    have := npArgmin_lt_length (cdf.map (fun c => |c - 1 / 2|)) hmne
    simpa using this
  set M := npArgmin (cdf.map (fun c => |c - 1 / 2|)) with hMdef
  have hmle : mleVal support cdf = support.getD M 0 := rfl
  have hargmin : ∀ j, j < cdf.length →
      |cdf.getD M 0 - 1 / 2| ≤ |cdf.getD j 0 - 1 / 2| := by
    intro j hj
    have h1 := npArgmin_le (cdf.map (fun c => |c - 1 / 2|)) j (by simpa using hj)
    rw [getD_map_abs_half cdf j hj, getD_map_abs_half cdf M hM] at h1
    exact h1
  constructor
  · by_cases hex : ∃ i, i < cdf.length ∧ cdf.getD i 0 < p
    · obtain ⟨⟨L, hL, hLp, heq⟩, _⟩ :=
        lowerLim_spec_exists support cdf p hlen hasc hex
      have hLM : L ≤ M := by
        by_contra hcon
        push_neg at hcon
        have hML : cdf.getD M 0 < cdf.getD L 0 := hstrict L hL M hcon
        have hM12 : cdf.getD M 0 < 1 / 2 := by linarith
        have hL12 : cdf.getD L 0 < 1 / 2 := by linarith
        have habs := hargmin L hL
        rw [abs_of_neg (by linarith : cdf.getD M 0 - 1 / 2 < 0),
          abs_of_neg (by linarith : cdf.getD L 0 - 1 / 2 < 0)] at habs
        linarith
      rw [heq, hmle]
      exact hasc M (by omega) L hLM
    · push_neg at hex
      have hfall : lowerLim support cdf p = support.headD 0 :=
        lowerLim_fallback support cdf p (fun i hi => not_lt.mpr (hex i hi))
      rw [hfall, hmle, headD_eq_getD support hne]
      exact hasc M (by omega) 0 (Nat.zero_le M)
  · by_cases hex : ∃ i, i < cdf.length ∧ 1 - p < cdf.getD i 0
    · obtain ⟨⟨U, hU, hUp, heq⟩, _⟩ :=
        upperLim_spec_exists support cdf p hlen hasc hex
      have hMU : M ≤ U := by
        by_contra hcon
        push_neg at hcon
        have hUM : cdf.getD U 0 < cdf.getD M 0 := hstrict M hM U hcon
        have hU12 : 1 / 2 ≤ cdf.getD U 0 := by linarith
        have habs := hargmin U hU
        rw [abs_of_nonneg (by linarith : (0:α) ≤ cdf.getD M 0 - 1 / 2),
          abs_of_nonneg (by linarith : (0:α) ≤ cdf.getD U 0 - 1 / 2)] at habs
        linarith
      rw [heq, hmle]
      exact hasc U (by omega) M hMU
    · push_neg at hex
      have hfall : upperLim support cdf p = support.getLastD 0 :=
        upperLim_fallback support cdf p (fun i hi => not_lt.mpr (hex i hi))
      rw [hfall, hmle, getLastD_eq_getD support hne]
      exact hasc (support.length - 1) (by omega) M (by omega)

/-- C6 witness: the ordering at support `[0, 1, 2]`, strictly increasing
CDF `[1/4, 1/2, 1]` and credible probability `1/4`. -/
theorem c6_bound_ordering_witness :
    lowerLim ([0, 1, 2] : List ℚ) [1/4, 1/2, 1] (1/4)
      ≤ mleVal ([0, 1, 2] : List ℚ) [1/4, 1/2, 1] ∧
    mleVal ([0, 1, 2] : List ℚ) [1/4, 1/2, 1]
      ≤ upperLim ([0, 1, 2] : List ℚ) [1/4, 1/2, 1] (1/4) :=
  c6_bound_ordering ([0, 1, 2] : List ℚ) [1/4, 1/2, 1] (1/4)
    (by simp) (by simp)
    (by intro j hj i hij
        simp at hj
        interval_cases j <;> interval_cases i <;> norm_num)
    (by intro j hj i hij
        simp at hj
        interval_cases j <;> interval_cases i <;> norm_num)
    (by norm_num) (by norm_num)

/-- C7: for an event on whose support the supplied prior density sums to
zero, the binomial estimator's `prior` closure falls back to the uniform
factor 1, so that event's CDF equals the CDF computed with no prior at
all; the computation succeeds (returns `ok`) rather than raising. -/
theorem c7_zero_prior_fallback (supports : List (List α))
    (rvs ns : List (List ℕ)) (ps : List (List α)) (f : α → α) (i : ℕ)
    (h1 : shapeOf rvs = shapeOf ns) (h2 : shapeOf ns = shapeOf ps)
    (h3 : shapeOf ps = shapeOf supports) (hi : i < supports.length)
    (hzero : ((supports.getD i []).map f).sum = 0) :
    ∃ cdfs1 cdfs2,
      bayes_bounds_binomial supports rvs ns ps (some f) = Except.ok cdfs1 ∧
      bayes_bounds_binomial supports rvs ns ps none = Except.ok cdfs2 ∧
      cdfs1.getD i [] = cdfs2.getD i [] := by
  obtain ⟨cdfs1, hok1, hev1⟩ :=
    bayes_bounds_binomial_event supports rvs ns ps (some f) h1 h2 h3 i hi
  obtain ⟨cdfs2, hok2, hev2⟩ :=
    bayes_bounds_binomial_event supports rvs ns ps none h1 h2 h3 i hi
  refine ⟨cdfs1, cdfs2, hok1, hok2, ?_⟩
  rw [hev1, hev2]
  have hpv : priorVals (some f) (supports.getD i [])
      = priorVals none (supports.getD i []) := by
    show (if ((supports.getD i []).map f).sum = 0
        then (supports.getD i []).map (fun _ => 1)
        else (supports.getD i []).map f)
      = (supports.getD i []).map (fun _ => 1)
    rw [if_pos hzero]
  unfold binomEventPdf
  rw [hpv]

/-- C7 witness: a prior that is identically zero on the event support
`[0]` yields the same event CDF as supplying no prior. -/
theorem c7_zero_prior_fallback_witness :
    ∃ cdfs1 cdfs2,
      bayes_bounds_binomial (α := ℚ) [[0]] [[0]] [[0]] [[1/2]]
        (some (fun _ => 0)) = Except.ok cdfs1 ∧
      bayes_bounds_binomial (α := ℚ) [[0]] [[0]] [[0]] [[1/2]] none
        = Except.ok cdfs2 ∧
      cdfs1.getD 0 [] = cdfs2.getD 0 [] :=
  c7_zero_prior_fallback [[0]] [[0]] [[0]] [[1/2]] (fun _ => 0) 0
    (by decide) (by decide) (by decide) (by decide) (by simp)

/-- C4 counterexample: the public `bayes_bounds` rejects the distribution
kind `skew_normal` at its entry assert even though all other arguments are
valid, contradicting the claim that every kind in
{binomial, normal, skew-normal} is accepted. -/
theorem c4_counterexample :
    bayes_bounds (α := ℚ) (fun _ _ _ => 0) [] "photons" (1/40) "lower"
      "skew_normal" [[0]] (BBKwargs.binom [[0]] [[0]] [[1]] none)
    = Except.error ("bound_type must be binomial or normal") := by
  rfl

/-- C4 (amended): the public `bayes_bounds` accepts exactly the
distribution kinds binomial and normal — with a valid bound kind and
matching shapes such a call returns `ok` — while every other distribution
kind, including `skew_normal`, fails fast at the entry assert. -/
theorem c4_accepted_kinds :
    (∀ (α : Type) [LinearOrderedField α], ∀ (npdf : α → α → α → α) (df : DF α)
      (in_dim : String) (bounds_prob : α) (bound : String)
      (supports : List (List α)) (rvs ns : List (List ℕ)) (ps : List (List α))
      (prior : Option (α → α)),
      bound ∈ ["upper", "lower", "mle"] →
      shapeOf rvs = shapeOf ns → shapeOf ns = shapeOf ps →
      shapeOf ps = shapeOf supports →
      (bayes_bounds npdf df in_dim bounds_prob bound "binomial" supports
        (BBKwargs.binom rvs ns ps prior)).isOk = true) ∧
    (∀ (α : Type) [LinearOrderedField α], ∀ (npdf : α → α → α → α) (df : DF α)
      (in_dim : String) (bounds_prob : α) (bound : String)
      (supports rvs mus sigmas : List (List α)),
      bound ∈ ["upper", "lower", "mle"] →
      shapeOf rvs = shapeOf mus → shapeOf mus = shapeOf sigmas →
      shapeOf sigmas = shapeOf supports →
      (bayes_bounds npdf df in_dim bounds_prob bound "normal" supports
        (BBKwargs.norm rvs mus sigmas)).isOk = true) ∧
    (∀ (α : Type) [LinearOrderedField α], ∀ (npdf : α → α → α → α) (df : DF α)
      (in_dim : String) (bounds_prob : α) (bound bound_type : String)
      (supports : List (List α)) (kw : BBKwargs α),
      bound ∈ ["upper", "lower", "mle"] →
      bound_type ∉ ["binomial", "normal"] →
      bayes_bounds npdf df in_dim bounds_prob bound bound_type supports kw
        = Except.error ("bound_type must be binomial or normal")) := by
  refine ⟨?_, ?_, ?_⟩
  · intro α inst npdf df in_dim bp bound supports rvs ns ps prior hbound h1 h2 h3
    have hbb : bayes_bounds_binomial supports rvs ns ps prior
        = Except.ok (((zipWith4 (fun rv_binom n_binom p_binom support =>
            binomEventPdf prior support rv_binom n_binom p_binom)
            rvs ns ps supports).map normalize).map cumsum) := by
      unfold bayes_bounds_binomial
      rw [if_pos ⟨h1, h2, h3⟩]
    have hb3 : bound = "upper" ∨ bound = "lower" ∨ bound = "mle" := by
      simpa using hbound
    unfold bayes_bounds
    rw [if_neg (by simp [hb3]), if_neg (by simp)]
    rcases hb3 with rfl | rfl | rfl <;>
      simp [hbb, Except.isOk, Except.toBool, Except.instMonad, Except.bind,
        Except.pure]
  · intro α inst npdf df in_dim bp bound supports rvs mus sigmas hbound h1 h2 h3
    have hbn : bayes_bounds_normal npdf supports rvs mus sigmas
        = Except.ok (((zipWith3 (fun rv_normal mu_normal sigma_normal =>
            zipWith3 npdf rv_normal mu_normal sigma_normal)
            rvs mus sigmas).map normalize).map cumsum) := by
      unfold bayes_bounds_normal
      rw [if_pos ⟨h1, h2, h3⟩]
    have hb3 : bound = "upper" ∨ bound = "lower" ∨ bound = "mle" := by
      simpa using hbound
    unfold bayes_bounds
    rw [if_neg (by simp [hb3]), if_neg (by simp)]
    rcases hb3 with rfl | rfl | rfl <;>
      simp [hbn, Except.isOk, Except.toBool, Except.instMonad, Except.bind,
        Except.pure]
  · intro α inst npdf df in_dim bp bound bound_type supports kw hbound hbt
    unfold bayes_bounds
    rw [if_neg (by simp at hbound ⊢; tauto), if_pos hbt]

/-- C4 witness: with a valid bound kind and matching shapes, a binomial
call and a normal call both return `ok`, while a `skew_normal` call
returns the entry-assert error. -/
theorem c4_accepted_kinds_witness :
    (bayes_bounds (α := ℚ) (fun _ _ _ => 0) [] "photons" (1/40) "upper"
      "binomial" [[0]] (BBKwargs.binom [[0]] [[0]] [[1]] none)).isOk = true ∧
    (bayes_bounds (α := ℚ) (fun _ _ _ => 0) [] "photons" (1/40) "upper"
      "normal" [[0]] (BBKwargs.norm [[0]] [[0]] [[1]])).isOk = true ∧
    bayes_bounds (α := ℚ) (fun _ _ _ => 0) [] "photons" (1/40) "upper"
      "skew_normal" [[0]] (BBKwargs.norm [[0]] [[0]] [[1]])
      = Except.error ("bound_type must be binomial or normal") :=
  ⟨c4_accepted_kinds.1 ℚ (fun _ _ _ => 0) [] "photons" (1/40) "upper"
      [[0]] [[0]] [[0]] [[1]] none (by decide) (by decide) (by decide) (by decide),
    c4_accepted_kinds.2.1 ℚ (fun _ _ _ => 0) [] "photons" (1/40) "upper"
      [[0]] [[0]] [[0]] [[1]] (by decide) (by decide) (by decide) (by decide),
    c4_accepted_kinds.2.2 ℚ (fun _ _ _ => 0) [] "photons" (1/40) "upper"
      "skew_normal" [[0]] (BBKwargs.norm [[0]] [[0]] [[1]]) (by decide) (by decide)⟩

/-- C1: concrete two-event batch on which `bayes_bounds_batched` stores the
Python-lexicographic `max` of the two whole lower-limit lists instead of
the per-event maximum.  The prior-based lower limits are `[1, 3]` and the
prior-free ones `[0, 4]`; the per-event maxima are `[1, 4]`, but the code
stores `[1, 3]`: event 1 keeps the looser bound `3 < 4`, so supplying the
prior loosened that event's lower bound. -/
theorem c1_lexicographic_max_eval :
    bayes_bounds_binomial (α := ℚ) [[0, 1, 2], [3, 4, 5]]
        [[1, 1, 1], [1, 1, 1]] [[1, 1, 1], [1, 1, 1]]
        [[1/2, 3/10, 1/5], [1/10, 1/10, 4/5]]
        (some (fun x => if x = 2 then 1 else if x = 3 then 8
          else if x = 5 then 1 else 0))
      = Except.ok [[0, 0, 1], [1/2, 1/2, 1]] ∧
    bayes_bounds_binomial (α := ℚ) [[0, 1, 2], [3, 4, 5]]
        [[1, 1, 1], [1, 1, 1]] [[1, 1, 1], [1, 1, 1]]
        [[1/2, 3/10, 1/5], [1/10, 1/10, 4/5]] none
      = Except.ok [[1/2, 4/5, 1], [1/10, 1/5, 1]] ∧
    lowerLims (α := ℚ) [[0, 1, 2], [3, 4, 5]] [[0, 0, 1], [1/2, 1/2, 1]] (1/2)
      = [1, 3] ∧
    lowerLims (α := ℚ) [[0, 1, 2], [3, 4, 5]] [[1/2, 4/5, 1], [1/10, 1/5, 1]] (1/2)
      = [0, 4] ∧
    bayes_bounds_batched (α := ℚ)
        ⟨[fun _ => (fun x => if x = 2 then 1 else if x = 3 then 8
            else if x = 5 then 1 else 0)], [], 2⟩
        0 [("electrons_min", [0, 0])] "electrons" (1/2) "lower" "binomial"
        [[0, 1, 2], [3, 4, 5]] [[1, 1, 1], [1, 1, 1]] [[1, 1, 1], [1, 1, 1]]
        [[1/2, 3/10, 1/5], [1/10, 1/10, 4/5]]
      = Except.ok [("electrons_min", [1, 3])] ∧
    max ((3 : ℚ)) 4 = 4 ∧ (3 : ℚ) < 4 := by
  refine ⟨?_, ?_, ?_, ?_, ?_, by norm_num, by norm_num⟩
  · norm_num [bayes_bounds_binomial, shapeOf, zipWith4, zipWith3, binomEventPdf,
      priorVals, binomPMF, normalize, cumsum, cumsumFrom]
  · norm_num [bayes_bounds_binomial, shapeOf, zipWith4, zipWith3, binomEventPdf,
      priorVals, binomPMF, normalize, cumsum, cumsumFrom]
  · norm_num [lowerLims, lowerLim, npWhereLt, List.range_succ]
  · norm_num [lowerLims, lowerLim, npWhereLt, List.range_succ]
  · norm_num [bayes_bounds_batched, bayes_bounds_binomial, shapeOf,
      zipWith4, zipWith3, binomEventPdf, priorVals, binomPMF,
      normalize, cumsum, cumsumFrom, lowerLims, lowerLim,
      npWhereLt, List.range_succ, pyMax2, pyListLt, dfSetSlice,
      dfSet, dfGet, listSetSlice, Except.instMonad, Except.bind,
      Except.pure, Bind.bind, Pure.pure]
    rfl

/-- C8: the quanta-splitting `_simulate` never reaches its clamped count
assignments — in the NR branch it asks for the undeclared model function
`exciton_ratio` (and would then hit the `d['ion_produced']` typo and the
unbound names on line 67), in the ER branch it asks for the undeclared
`recomb_prob` — so for every dataframe, model environment and random draw
it raises instead of producing `electrons_produced`/`photons_produced`. -/
theorem c8_simulate_always_raises :
    (∀ (d : DF ℤ) (env : String → List ℚ) (a b c e f : List ℤ),
      MakePhotonsElectronsNR_simulate false special_model_functions_NR d env
        a b c e f
        = Except.error ("model function not declared: exciton_ratio")) ∧
    (∀ (d : DF ℤ) (env : String → List ℚ) (a b c e f : List ℤ),
      MakePhotonsElectronsNR_simulate true special_model_functions_ER d env
        a b c e f
        = Except.error ("model function not declared: recomb_prob")) := by
  constructor <;> (intro d env a b c e f; rfl)

/-- C10 counterexample: a `bayes_bounds_batched` call with `bound = 'mle'`
passes the entry validation but then raises (the Python local
`prior_pdfs` is read before assignment), contradicting the claim that the
call returns without raising. -/
theorem c10_counterexample :
    bayes_bounds_batched (α := ℚ) ⟨[], [], 1⟩ 0 [] "photons" (1/40) "mle"
      "binomial" [] [] [] []
    = Except.error
        ("UnboundLocalError: local variable prior_pdfs referenced before assignment") := by
  rfl

/-- C10 (amended): every `bayes_bounds_batched` call with `bound = 'mle'`
passes the entry asserts (which admit `'mle'`) but then unconditionally
raises an unbound-local error when reading the never-assigned
`prior_pdfs`, before any CDF is computed or any dataframe column written;
the dataframe is left as it was. -/
theorem c10_mle_unbound_local (source : Source α) (batch : ℕ) (df : DF α)
    (in_dim : String) (bounds_prob : α) (supports : List (List α))
    (rvs_binom ns_binom : List (List ℕ)) (ps_binom : List (List α)) :
    bayes_bounds_batched source batch df in_dim bounds_prob "mle" "binomial"
      supports rvs_binom ns_binom ps_binom
    = Except.error
        ("UnboundLocalError: local variable prior_pdfs referenced before assignment") := by
  unfold bayes_bounds_batched
  rw [if_neg (by simp), if_neg (by simp)]
  rfl

end Claims

end FD
